import Mathlib

/-!
# Verification of the `ccbr_server` RAID topology normalization engine

Shallow embedding, in Lean 4, of the parts of the `ccbr_server` repository
that the frozen claims are about:

* the standardized data model (`Adapter`, `LogicalDrive`, `PhysicalDrive`)
  and the class-level collections of `RaidReport` (`src/ccbr_server/raid.py`);
* the topology linker `RaidReport.connect_data`;
* the manager selector `RaidReport.automatic_cli` and `RaidReport.find_cli_path`;
* the per-record conversion loops of `MegaCliReport.parse_physical_drives`,
  `OmreportReport.parse_physical_drives`, `MegaCliReport.parse_adapters`,
  `MegaCliReport.parse_logical_drives` (`raid_megacli.py`, `raid_omreport.py`);
* the software-RAID probing machinery `examine_physical_drive` and the
  result-merging loop of `MdReport.parse_physical_drives`, plus
  `MdReport._check_array_list` (`raid_md.py`).

Python mutable objects connected by references are embedded as explicit
state passing: object references into `self.adapters` / `self.log_drives`
become list indices (`Nat`), references to entries of the `self.phy_drives`
dict become the entry's key (`String`); Python dicts become association
lists in insertion order; code that can raise (`KeyError`, `IndexError`,
`RaidReportException`) returns `Option` / `Except`.
-/

set_option autoImplicit false

namespace CcbrServer

/-! ## Python semantics helpers

The string primitives are implemented over the character list `String.data`
(Lean's own `String.splitOn`, `trim`, … are compiled loops that the kernel
cannot evaluate, so properties about concrete inputs could not be checked
against them). -/

/-- Split a character list on a separator character.  Like Python
`s.split(c)`, the result always has at least one (possibly empty) piece. -/
def splitOnChar (c : Char) : List Char → List (List Char)
  | [] => [[]]
  | x :: xs =>
    match splitOnChar c xs with
    | [] => [[]]
    | y :: ys => if x = c then [] :: y :: ys else (x :: y) :: ys

/-- Python `s.split(sep)` for a one-character separator. -/
def pySplit1 (c : Char) (s : String) : List String :=
  (splitOnChar c s.data).map String.mk

/-- Python `str.split()` with no argument: split on whitespace runs,
discarding empty pieces. -/
def pySplit (s : String) : List String :=
  ((splitOnChar ' ' s.data).filter (fun t => t ≠ [])).map String.mk

/-- Python `str.splitlines()`: like splitting on `'\n'` but without a
trailing empty piece when the text ends in a newline. -/
def pySplitlines (s : String) : List String :=
  let parts := (splitOnChar '\n' s.data).map String.mk
  if parts.getLast? = some "" then parts.dropLast else parts

/-- Whether the needle is a prefix of the haystack. -/
def leadMatch : List Char → List Char → Bool
  | [], _ => true
  | _ :: _, [] => false
  | a :: as, b :: bs => a = b && leadMatch as bs

/-- Whether the needle occurs anywhere in the haystack. -/
def containsSeq (needle : List Char) : List Char → Bool
  | [] => leadMatch needle []
  | x :: xs => leadMatch needle (x :: xs) || containsSeq needle xs

/-- Python `needle in s` substring test. -/
def pyIn (needle s : String) : Bool :=
  containsSeq needle.data s.data

/-- Python `s.startswith(p)`. -/
def pyStartswith (p s : String) : Bool :=
  leadMatch p.data s.data

/-- Python `s.endswith(p)`. -/
def pyEndswith (p s : String) : Bool :=
  leadMatch p.data.reverse s.data.reverse

/-- Drop leading whitespace. -/
def trimLeftCh (l : List Char) : List Char :=
  l.dropWhile Char.isWhitespace

/-- Drop trailing whitespace. -/
def trimRightCh (l : List Char) : List Char :=
  (trimLeftCh l.reverse).reverse

/-- Python `str.strip()`. -/
def pyStrip (s : String) : String :=
  String.mk (trimRightCh (trimLeftCh s.data))

/-- Python `sep.join(parts)`. -/
def pyJoin (sep : String) (parts : List String) : String :=
  String.mk (List.intercalate sep.data (parts.map String.data))

/-- Lexicographic order on character lists (by code point). -/
def chLe : List Char → List Char → Bool
  | [], _ => true
  | _ :: _, [] => false
  | a :: as, b :: bs => if a = b then chLe as bs else decide (a.toNat < b.toNat)

/-- Python string comparison `a <= b` (lexicographic by code point). -/
def pyStrLe (a b : String) : Bool :=
  chLe a.data b.data

/-- Decimal digit-run parsing (`none` when empty or not all digits). -/
def digitsVal (l : List Char) : Option Nat :=
  if l ≠ [] ∧ l.all Char.isDigit then
    some (l.foldl (fun n c => n * 10 + (c.toNat - 48)) 0)
  else none

/-- Python `int(s)` for the strings this code feeds it, as an `Option`
(`none` models `ValueError`). -/
def pyInt (s : String) : Option Int :=
  match trimRightCh (trimLeftCh s.data) with
  | '-' :: rest => (digitsVal rest).map (fun n => -(n : Int))
  | '+' :: rest => (digitsVal rest).map (fun n => (n : Int))
  | t => (digitsVal t).map (fun n => (n : Int))

/-- The line grammar `PROP_RE = re.compile(r'(.*?)\s*:\s*(.+)')` applied with
`re.match` to an already stripped line: the key is everything before the
first colon that is followed by at least one character, right-trimmed; the
value is the rest, left-trimmed (with the regex backtracking edge case that
an all-space remainder matches as a single space). -/
def propMatch (line : String) : Option (String × String) :=
  match splitOnChar ':' line.data with
  | [] => none
  | [_] => none
  | key :: rest =>
    let value := List.intercalate [':'] rest
    if value = [] then none
    else if trimLeftCh value = [] then some (String.mk (trimRightCh key), " ")
    else some (String.mk (trimRightCh key), String.mk (trimLeftCh value))

/-! ## Python dict embedding (association list in insertion order) -/

/-- `d[k]` read access: first entry with the given key. -/
def dictLookup {α : Type} : List (String × α) → String → Option α
  | [], _ => none
  | (k', v) :: rest, k => if k' = k then some v else dictLookup rest k

/-- `d[k] = v`: overwrite in place if the key is present (a Python dict
keeps the original insertion position), append otherwise. -/
def dictInsert {α : Type} : List (String × α) → String → α → List (String × α)
  | [], k, v => [(k, v)]
  | (k', v') :: rest, k, v =>
    if k' = k then (k, v) :: rest else (k', v') :: dictInsert rest k v

/-- Mutating the object stored at key `k` (`d[k].attr = ...`): update the
entry `dictLookup` resolves to. -/
def dictModify {α : Type} : List (String × α) → String → (α → α) → List (String × α)
  | [], _, _ => []
  | (k', v) :: rest, k, f =>
    if k' = k then (k', f v) :: rest else (k', v) :: dictModify rest k f

/-- In-place update of the list element at index `i` (mutation of the object
a Python list slot refers to). -/
def listModify {α : Type} : List α → Nat → (α → α) → List α
  | [], _, _ => []
  | x :: xs, 0, f => f x :: xs
  | x :: xs, n + 1, f => x :: listModify xs n f

/-! ## Standardized data model (`raid.py`) -/

/-- `PhysicalDrive.STATUS_GOOD` -/
def STATUS_GOOD : Nat := 0

/-- `PhysicalDrive.STATUS_FAILING` -/
def STATUS_FAILING : Nat := 1

/-- `PhysicalDrive.STATUS_FAILED` -/
def STATUS_FAILED : Nat := 2

/-- The `Adapter` model.  `logical_drives` holds indices into the
`log_drives` collection, `physical_drives` and `spare_physical_drives` hold
keys into the `phy_drives` dict (object references in the source). -/
structure Adapter where
  adapter_id : String
  name : String
  serial : String
  temperature : Option Int := none
  data : List (String × String) := []
  logical_drives : List Nat := []
  physical_drives : List String := []
  spare_physical_drives : List String := []
deriving DecidableEq, Repr

/-- The `LogicalDrive` model.  `adapter` is an index into the adapters list,
`physical_drives` (set by the linker) holds keys into the `phy_drives`
dict; `none` models the attribute not having been set yet. -/
structure LogicalDrive where
  drive_id : String
  raid_level : String
  size : String
  state : String
  adapter_id : String
  phy_drive_ids : List String
  problem : Bool
  data : List (String × String) := []
  adapter : Option Nat := none
  physical_drives : Option (List String) := none
deriving DecidableEq, Repr

/-- The `PhysicalDrive` model.  `adapter` is an index into the adapters
list, `logical_drive` an index into the `log_drives` list (`none` models
the Python `None` class default). -/
structure PhysicalDrive where
  drive_id : String
  state : String
  size : String
  protocol : String
  drive_type : String
  fru : String
  temperature : String
  status : Nat
  adapter_id : String
  slot : String
  hotspare : Bool
  data : List (String × String) := []
  adapter : Option Nat := none
  logical_drive : Option Nat := none
deriving DecidableEq, Repr

/-- The class-level collections of `RaidReport`:
`adapters`, `phy_drives` (a dict), `log_drives`. -/
structure RaidState where
  adapters : List Adapter
  phy_drives : List (String × PhysicalDrive)
  log_drives : List LogicalDrive
deriving DecidableEq, Repr

/-! ## Topology linker (`RaidReport.connect_data`) -/

/-- The `adapter_map` built by the first loop of `connect_data`:
`adapter_map[adapter.adapter_id] = adapter` maps every id to the *last*
adapter carrying it.  Keyed on the list of adapter ids; the result is the
index of that adapter. -/
def lastIdx : List String → String → Option Nat
  | [], _ => none
  | x :: rest, i =>
    match lastIdx rest i with
    | some j => some (j + 1)
    | none => if x = i then some 0 else none

/-- `pdrive.logical_drive = drive` for logical drive number `j`. -/
def setLD (j : Nat) (pd : PhysicalDrive) : PhysicalDrive :=
  { pd with logical_drive := some j }

/-- The second loop of `connect_data`: for each logical drive (numbered `j`
in iteration order) resolve its adapter (`KeyError` if absent from the
adapter map), resolve every member id against the `phy_drives` dict
(`KeyError` if absent), point each member's `logical_drive` back at this
logical drive, and append the logical drive to its adapter's list. -/
def linkLogicalAux (src : List String) :
    List Adapter → List (String × PhysicalDrive) → List LogicalDrive → Nat →
    List LogicalDrive →
    Except String (List Adapter × List (String × PhysicalDrive) × List LogicalDrive)
  | ads, phy, done, _, [] => .ok (ads, phy, done)
  | ads, phy, done, j, ld :: rest =>
    match lastIdx src ld.adapter_id with
    | none => .error "KeyError: logical drive adapter_id"
    | some ai =>
      if ld.phy_drive_ids.all (fun k => (dictLookup phy k).isSome) then
        let phy' := ld.phy_drive_ids.foldl (fun ph k => dictModify ph k (setLD j)) phy
        let ld' := { ld with adapter := some ai, physical_drives := some ld.phy_drive_ids }
        let ads' := listModify ads ai
          (fun a => { a with logical_drives := a.logical_drives ++ [j] })
        linkLogicalAux src ads' phy' (done ++ [ld']) (j + 1) rest
      else .error "KeyError: phy_drive_id"

/-- The third loop of `connect_data`: for each physical drive (in dict
insertion order) resolve its adapter (`KeyError` if absent) and append the
drive to that adapter's `physical_drives`. -/
def linkPhysicalAux (src : List String) :
    List Adapter → List (String × PhysicalDrive) → List (String × PhysicalDrive) →
    Except String (List Adapter × List (String × PhysicalDrive))
  | ads, done, [] => .ok (ads, done)
  | ads, done, (k, pd) :: rest =>
    match lastIdx src pd.adapter_id with
    | none => .error "KeyError: physical drive adapter_id"
    | some ai =>
      let pd' := { pd with adapter := some ai }
      let ads' := listModify ads ai
        (fun a => { a with physical_drives := a.physical_drives ++ [k] })
      linkPhysicalAux src ads' (done ++ [(k, pd')]) rest

/-- `RaidReport.connect_data`: reset each adapter's drive lists and build
the adapter map, link logical drives, link physical drives, then compute
each adapter's spare list as its physical drives with no `logical_drive`
back-reference. -/
def connect_data (s : RaidState) : Except String RaidState :=
  let ads0 := s.adapters.map (fun a => { a with physical_drives := [], logical_drives := [] })
  let src := ads0.map (fun a => a.adapter_id)
  match linkLogicalAux src ads0 s.phy_drives [] 0 s.log_drives with
  | .error e => .error e
  | .ok (ads1, phy1, logs1) =>
    match linkPhysicalAux src ads1 [] phy1 with
    | .error e => .error e
    | .ok (ads2, phy2) =>
      let ads3 := ads2.map (fun a =>
        { a with spare_physical_drives := a.physical_drives.filter (fun k =>
            match dictLookup phy2 k with
            | some pd => pd.logical_drive.isNone
            | none => true) })
      .ok { adapters := ads3, phy_drives := phy2, log_drives := logs1 }

/-- Observation harness for the linker: the number (in iteration order) of
the *last* logical drive of the list whose member list contains the key
`k`, starting the numbering at `j` — the logical drive whose back-reference
the key's drive ends up holding. -/
def lastOwner : List LogicalDrive → Nat → String → Option Nat
  | [], _, _ => none
  | ld :: rest, j, k =>
    match lastOwner rest (j + 1) k with
    | some m => some m
    | none => if k ∈ ld.phy_drive_ids then some j else none

/-- Observation harness: the numbers (starting at `j`) of the logical
drives, listed by their `adapter_id`, that the adapter map sends to adapter
index `i`. -/
def ownedIdxs (src : List String) : List String → Nat → Nat → List Nat
  | [], _, _ => []
  | aid :: rest, j, i =>
    (if lastIdx src aid = some i then [j] else []) ++ ownedIdxs src rest (j + 1) i

/-- Observation harness: the keys of the physical-drive entries (listed as
`(key, adapter_id)` pairs) that the adapter map sends to adapter index
`i`, in dict order. -/
def ownedKeys (src : List String) (pl : List (String × String)) (i : Nat) : List String :=
  (pl.filter (fun e => lastIdx src e.2 = some i)).map Prod.fst

/-- The adapter-id list of a state, the index of the adapter map. -/
def adapterIds (s : RaidState) : List String :=
  s.adapters.map (fun a => a.adapter_id)

/-- `adapter_id` resolution test used to state the linker's success
condition: some parsed adapter carries the id. -/
def adapterResolves (adapters : List Adapter) (i : String) : Bool :=
  adapters.any (fun a => a.adapter_id = i)

/-- All foreign-key references of the three collections resolve: every
logical drive's `adapter_id` and member ids, and every physical drive's
`adapter_id`. -/
def allResolved (s : RaidState) : Bool :=
  (s.log_drives.all (fun ld => adapterResolves s.adapters ld.adapter_id &&
      ld.phy_drive_ids.all (fun k => (dictLookup s.phy_drives k).isSome))) &&
  s.phy_drives.all (fun e => adapterResolves s.adapters e.2.adapter_id)

/-! ## Vendor parser record conversion (`raid_megacli.py`, `raid_omreport.py`)

The cited claim regions are the conversion loops that turn the raw record
dicts (already accumulated by the text-block scanners) into standardized
model objects and store them in the class-level collections; the raw
records are therefore the inputs of these definitions. -/

/-- One raw physical-drive record of the MegaCli block scanner: the
`key: value` dict (which also holds the scanner-injected `adapter_id`
entry), plus the boolean `hotspare` entry, kept as a separate flag because
it is the single non-string value in the dict. -/
structure RawDrive where
  fields : List (String × String)
  hotspare : Bool := false
deriving DecidableEq, Repr

/-- `Adapter.__init__`: `temperature = int(temperature) if temperature else
None`, where the argument is `none` (Python `False` / missing) or a string;
`int()` of a malformed string raises (`none` result). -/
def mkAdapter (adapter_id name serial : String) (temperature : Option String)
    (data : List (String × String)) : Option Adapter :=
  match temperature with
  | none => some { adapter_id, name, serial, temperature := none, data }
  | some t =>
    if t = "" then some { adapter_id, name, serial, temperature := none, data }
    else (pyInt t).map (fun n => { adapter_id, name, serial, temperature := some n, data })

/-- Stable insertion into a sorted list: the new element goes after every
element currently ordered at-or-below it. -/
def sInsert {α : Type} (le : α → α → Bool) (x : α) : List α → List α
  | [] => [x]
  | y :: ys => if le y x then y :: sInsert le x ys else x :: y :: ys

/-- Stable sort (Python `sorted`). -/
def stableSort {α : Type} (le : α → α → Bool) (l : List α) : List α :=
  l.foldl (fun acc x => sInsert le x acc) []

/-- The conversion loop of `MegaCliReport.parse_adapters` (lines 42-50):
sort the raw adapter records by their `id` (`KeyError` if absent), convert
each to the standardized `Adapter` (the required `Product Name` and
`Serial No` lookups raise on absence; the ROC temperature is passed only
when the key is present, with Python's `d['ROC temperature'].split()[0]`
raising `IndexError` on an all-space value), and append to the class-level
`self.adapters`. -/
def megacliAdaptersPhase (adapters : List Adapter)
    (raws : List (List (String × String))) : Option (List Adapter) := do
  let keyed ← raws.mapM (fun a => (dictLookup a "id").map (fun i => (i, a)))
  let sorted := (stableSort (fun x y => pyStrLe x.1 y.1) keyed).map (fun e => e.2)
  let news ← sorted.mapM (fun a => do
    let id ← dictLookup a "id"
    let pn ← dictLookup a "Product Name"
    let sn ← dictLookup a "Serial No"
    let roc ← match dictLookup a "ROC temperature" with
      | none => some none
      | some v => ((pySplit v).head?).map some
    mkAdapter id pn sn roc [])
  return adapters ++ news

/-- The status-classification and conversion step of
`MegaCliReport.parse_physical_drives` (lines 90-109) for one raw record:
status starts `GOOD`, becomes `FAILING` when `Predictive Failure Count`
is not `'0'`, and `FAILED` when `'bad'` occurs in `Firmware state`; the
required dict lookups raise `KeyError` when absent (`none` result), while
`IBM FRU/CRU` and the hotspare marker are read with defaults. -/
def megacliConvert (d : RawDrive) : Option PhysicalDrive := do
  let pfc ← dictLookup d.fields "Predictive Failure Count"
  let fw ← dictLookup d.fields "Firmware state"
  let status0 := STATUS_GOOD
  let status1 := if pfc ≠ "0" then STATUS_FAILING else status0
  let status := if pyIn "bad" fw then STATUS_FAILED else status1
  let did ← dictLookup d.fields "Device Id"
  let rawSize ← dictLookup d.fields "Raw Size"
  let pdType ← dictLookup d.fields "PD Type"
  let inq ← dictLookup d.fields "Inquiry Data"
  let fru := (dictLookup d.fields "IBM FRU/CRU").getD ""
  let tempv ← dictLookup d.fields "Drive Temperature"
  let temp ← (pySplit tempv).head?
  let aid ← dictLookup d.fields "adapter_id"
  let slot ← dictLookup d.fields "Slot Number"
  return {
    drive_id := did
    state := fw
    size := pyStrip ((pySplit1 '[' rawSize).headD "")
    protocol := pdType
    drive_type := pyJoin " " (pySplit inq)
    fru := fru
    temperature := temp
    status := status
    adapter_id := aid
    slot := slot
    hotspare := d.hotspare }

/-- The storing loop of `MegaCliReport.parse_physical_drives`:
`self.phy_drives[pdrive.drive_id] = pdrive` for each raw record — the key
is the raw `Device Id` alone. -/
def megacliStorePhase (phy : List (String × PhysicalDrive)) (drives : List RawDrive) :
    Option (List (String × PhysicalDrive)) :=
  drives.foldlM (fun ph d => (megacliConvert d).map (fun pd => dictInsert ph pd.drive_id pd)) phy

/-- `RAID_LEVEL_MAP` of `raid_megacli.py`. -/
def RAID_LEVEL_MAP : List (String × String) :=
  [("Primary-1, Secondary-0, RAID Level Qualifier-0", "RAID1"),
   ("Primary-5, Secondary-0, RAID Level Qualifier-3", "RAID5")]

/-- One raw logical-drive record of the MegaCli scanner: the `id`,
`adapter_id` and `physical_drives` entries are installed when the block
opens, the remaining `key: value` pairs land in `fields`. -/
structure RawLogDrive where
  id : String
  adapter_id : String
  physical_drives : List String
  fields : List (String × String)
deriving DecidableEq, Repr

/-- The conversion loop of `MegaCliReport.parse_logical_drives`
(lines 153-162): `RAID Level`, `Size` and `State` are required lookups, the
RAID level is translated through `RAID_LEVEL_MAP` with `'?'` as default,
`problem` is `State != 'Optimal'`; each converted drive is appended to the
class-level `self.log_drives`. -/
def megacliLogPhase (logs : List LogicalDrive) (raws : List RawLogDrive) :
    Option (List LogicalDrive) := do
  let news ← raws.mapM (fun d => do
    let rl ← dictLookup d.fields "RAID Level"
    let size ← dictLookup d.fields "Size"
    let st ← dictLookup d.fields "State"
    pure {
      drive_id := d.id
      raid_level := (dictLookup RAID_LEVEL_MAP rl).getD "?"
      size := size
      state := st
      adapter_id := d.adapter_id
      phy_drive_ids := d.physical_drives
      problem := st ≠ "Optimal" : LogicalDrive })
  return logs ++ news

/-- The status-classification and conversion step of
`OmreportReport.parse_physical_drives` (lines 82-102) for one raw record
(which carries the scanner-injected `adapter_id`): status starts `GOOD`
and becomes `FAILED` exactly when `Status` is `'Critical'`; FRU and
temperature are hard-coded empty; `drive['ID'].split(':')[1]` raises
`IndexError` when the id has no colon.  The result is paired with the
storage key `drive['adapter_id'] + pdrive.drive_id` used at line 104. -/
def omreportConvert (d : List (String × String)) : Option (String × PhysicalDrive) := do
  let id ← dictLookup d "ID"
  let _ldid ← (pySplit1 ':' id).get? 1
  let st ← dictLookup d "Status"
  let status0 := STATUS_GOOD
  let status := if st = "Critical" then STATUS_FAILED else status0
  let cap ← dictLookup d "Capacity"
  let bus ← dictLookup d "Bus Protocol"
  let prod ← dictLookup d "Product ID"
  let hs ← dictLookup d "Hot Spare"
  let aid ← dictLookup d "adapter_id"
  return (aid ++ id, {
    drive_id := id
    state := st
    size := pyStrip ((pySplit1 '(' cap).headD "")
    protocol := bus
    drive_type := prod
    fru := ""
    temperature := ""
    status := status
    adapter_id := aid
    slot := id
    hotspare := hs ≠ "No"
    data := d })

/-- The parsing loop shared by `examine_physical_drive` and
`MdReport.parse_logical_drives`: feed each stripped line to `PROP_RE` and
accumulate the matches in a dict. -/
def parseProps (out : String) : List (String × String) :=
  (pySplitlines out).foldl (fun d line =>
    match propMatch line.trim with
    | some kv => dictInsert d kv.1 kv.2
    | none => d) []

/-- `examine_physical_drive` (lines 17-42): the external
`timeout <t> mdadm --examine <device>` run is abstracted by its exit code
`ret` and captured output `out`.  Exit code 124 is the `timeout` wrapper's
timeout signal; on it the output is never read, and on any non-zero exit
the function returns the device path paired with an empty dict, otherwise
the parsed property dict. -/
def examine_physical_drive (device_path : String) (ret : Nat) (out : String) :
    String × List (String × String) :=
  if ret ≠ 0 then (device_path, [])
  else (device_path, parseProps out)

/-- The per-result merge of `MdReport.parse_physical_drives`
(lines 147-154): a non-empty examine dict updates the drive's `hotspare`
flag and raw data; an empty dict (mdadm timeout or failure) marks the
drive `STATUS_FAILING`. -/
def mdApply (out : List (String × String)) (pd : PhysicalDrive) : PhysicalDrive :=
  if out.isEmpty then { pd with status := STATUS_FAILING }
  else { pd with hotspare := decide (dictLookup out "Device Role" = some "spare"), data := out }

/-- The result-collection loop of `MdReport.parse_physical_drives`: for
each `(device_path, device_out)` pair map the path back to its drive id
through the `devices` dict (`KeyError` possible), look the drive up in the
class-level `self.phy_drives` (`KeyError` possible) and mutate it with
`mdApply`. -/
def mdFold (devices : List (String × String)) :
    List (String × PhysicalDrive) → List (String × List (String × String)) →
    Option (List (String × PhysicalDrive))
  | ph, [] => some ph
  | ph, r :: rest => do
    let did ← dictLookup devices r.1
    let _ ← dictLookup ph did
    mdFold devices (dictModify ph did (mdApply r.2)) rest

/-- Lines 144-156 of `MdReport.parse_physical_drives`: fan
`examine_physical_drive` out over `devices.keys()` with the bounded pool
(`pool.map` returns exactly one result pair per input item, in input
order; the external probe of each device is abstracted by the oracle
`probe` giving its exit code and output), then merge every result back
into `self.phy_drives`. -/
def mdProbePhase (phy : List (String × PhysicalDrive)) (devices : List (String × String))
    (probe : String → Nat × String) : Option (List (String × PhysicalDrive)) :=
  let res := devices.map (fun e => examine_physical_drive e.1 (probe e.1).1 (probe e.1).2)
  mdFold devices phy res

/-- `MdReport._check_array_list` (lines 62-73): non-zero exit of
`mdadm --detail --scan` or empty output abort; otherwise the second token
of every output line (an `IndexError` when a line has fewer than two
tokens) is appended to the class-level `MdReport.arrays`. -/
def mdCheckArrayList (arrays : List String) (ret : Nat) (out : String) :
    Except String (List String) :=
  if ret ≠ 0 then .error "mdadm could not get list of arrays"
  else if out = "" then .error "mdadm is not managing any arrays"
  else
    match (pySplitlines out).mapM (fun line => (pySplit line).get? 1) with
    | none => .error "IndexError: line.split()[1]"
    | some devs => .ok (arrays ++ devs)

/-! ## Manager selection (`RaidReport.find_cli_path`, `RaidReport.automatic_cli`) -/

/-- `RaidReport.find_cli_path`: return the first executable of
`self.executables` found on the search path (the path lookup
`distutils.spawn.find_executable` is abstracted by `find_executable`);
raise `RaidReportException` when none is found. -/
def find_cli_path (executables : List String) (find_executable : String → Option String) :
    Except String String :=
  match executables.findSome? find_executable with
  | some path => .ok path
  | none => .error ("Could not find executable on PATH: " ++ pyJoin "," executables)

/-- Outcome of importing a candidate module and calling `module.report()`,
abstracting the host environment: the import can fail, the module can lack
a `report` attribute, instantiation can raise `RaidReportException`
(unsupported manager, e.g. its CLI binary is absent), or it can succeed
with a report (represented by a tag). -/
inductive CandOutcome where
  | importFailed
  | noReportAttr
  | unsupported
  | supported (r : String)
deriving DecidableEq, Repr

/-- The filename filter of `automatic_cli`:
`f.startswith('raid_') and f.endswith('.py')`. -/
def isRaidModule (f : String) : Bool :=
  pyStartswith "raid_" f && pyEndswith ".py" f

/-- `RaidReport.automatic_cli` (lines 138-169) over the directory listing
`files`: skip non-`raid_*.py` files; a failed import or a
`RaidReportException` from `module.report()` moves on to the next file;
the first successful instantiation is returned.  When the module has no
`report` attribute, the `except AttributeError` handler itself evaluates
`module.report.__name__` and so re-raises `AttributeError`, aborting the
scan (dead code for this package: every `raid_*.py` module defines
`report`).  If the listing is exhausted, `RaidReportException("No
supported RAID managers found.")` is raised. -/
def automatic_cli : List String → (String → CandOutcome) → Except String String
  | [], _ => .error "No supported RAID managers found."
  | f :: rest, outcome =>
    if isRaidModule f then
      match outcome f with
      | .supported r => .ok r
      | .noReportAttr => .error "AttributeError"
      | _ => automatic_cli rest outcome
    else automatic_cli rest outcome

/-- Observation harness for `automatic_cli`: the candidate modules whose
outcome the scan actually consults, in order (the scan stops at the first
supported one). -/
def attemptedModules : List String → (String → CandOutcome) → List String
  | [], _ => []
  | f :: rest, outcome =>
    if isRaidModule f then
      match outcome f with
      | .supported _ => [f]
      | .noReportAttr => [f]
      | _ => f :: attemptedModules rest outcome
    else attemptedModules rest outcome

/-- Observation harness: the first `raid_*.py` candidate whose
instantiation succeeds, with its report. -/
def firstSupported : List String → (String → CandOutcome) → Option String
  | [], _ => none
  | f :: rest, outcome =>
    if isRaidModule f then
      match outcome f with
      | .supported r => some r
      | _ => firstSupported rest outcome
    else firstSupported rest outcome

/-! ## Concrete inputs used by the counterexamples and witnesses -/

/-- A parsed adapter as a vendor parser would produce it. -/
def exAdapter (i : String) : Adapter :=
  { adapter_id := i, name := "PERC H700", serial := "SER" ++ i }

/-- A parsed physical drive with key fields filled in. -/
def exDrive (i a : String) : PhysicalDrive :=
  { drive_id := i, state := "Online", size := "1TB", protocol := "SATA", drive_type := "X",
    fru := "", temperature := "30", status := STATUS_GOOD, adapter_id := a, slot := "0",
    hotspare := false }

/-- A parsed logical drive with the given member keys. -/
def exLog (i a : String) (ks : List String) : LogicalDrive :=
  { drive_id := i, raid_level := "RAID1", size := "1TB", state := "Optimal", adapter_id := a,
    phy_drive_ids := ks, problem := false }

/-- C1 counterexample input: one adapter, one parsed drive on it, no
logical drives (the drive is a spare). -/
def exC1 : RaidState :=
  { adapters := [exAdapter "0"], phy_drives := [("d", exDrive "d" "0")], log_drives := [] }

/-- The linked graph `connect_data` produces on `exC1`. -/
def exC1linked : RaidState :=
  { adapters := [{ exAdapter "0" with physical_drives := ["d"], spare_physical_drives := ["d"] }],
    phy_drives := [("d", { exDrive "d" "0" with adapter := some 0 })],
    log_drives := [] }

/-- C1/C7 witness input: one adapter, two drives, one single-member array. -/
def exC7 : RaidState :=
  { adapters := [exAdapter "0"],
    phy_drives := [("d", exDrive "d" "0"), ("e", exDrive "e" "0")],
    log_drives := [exLog "L0" "0" ["d"]] }

/-- The linked graph `connect_data` produces on `exC7`. -/
def exC7linked : RaidState :=
  { adapters :=
      [{ exAdapter "0" with
          logical_drives := [0]
          physical_drives := ["d", "e"]
          spare_physical_drives := ["e"] }]
    phy_drives :=
      [("d", { exDrive "d" "0" with adapter := some 0, logical_drive := some 0 }),
       ("e", { exDrive "e" "0" with adapter := some 0 })]
    log_drives :=
      [{ exLog "L0" "0" ["d"] with adapter := some 0, physical_drives := some ["d"] }] }

/-- C3 witness input: a logical drive whose `adapter_id` resolves to no
parsed adapter. -/
def exC3 : RaidState :=
  { adapters := [exAdapter "0"], phy_drives := [], log_drives := [exLog "L0" "9" []] }

/-- C10 witness input: drive key `d` is a member of both logical drives. -/
def exC10 : RaidState :=
  { adapters := [exAdapter "0"],
    phy_drives := [("d", exDrive "d" "0"), ("e", exDrive "e" "0")],
    log_drives := [exLog "L0" "0" ["d"], exLog "L1" "0" ["d", "e"]] }

/-- C2 counterexample input: a complete MegaCli drive record whose
`Firmware state` value matches no entry of the status mapping (it is not a
known-healthy value and does not contain the failure marker `bad`), with a
zero predictive-failure counter. -/
def exC2raw : RawDrive :=
  { fields := [("adapter_id", "0"), ("Device Id", "7"),
    ("Firmware state", "Unrecognized-state"),
    ("Predictive Failure Count", "0"), ("Raw Size", "1.819 TB [0xe8e088b0 Sectors]"),
    ("PD Type", "SATA"), ("Inquiry Data", "WDC  WD2003FYYS  01.01D02"),
    ("Drive Temperature", "30C (86.00 F)"), ("Slot Number", "3")] }

/-- The `PhysicalDrive` MegaCli builds from `exC2raw`. -/
def exC2pd : PhysicalDrive := (megacliConvert exC2raw).getD (exDrive "" "")

/-- An omreport drive record whose `Status` value is not in the mapping. -/
def exC2om : List (String × String) :=
  [("adapter_id", "0"), ("ID", "0:0:4"), ("Status", "Unknown"),
   ("Capacity", "931.00 GB (999653638144 bytes)"), ("Bus Protocol", "SAS"),
   ("Product ID", "ST91000640SS"), ("Hot Spare", "No")]

/-- The keyed `PhysicalDrive` omreport builds from `exC2om`. -/
def exC2omkp : String × PhysicalDrive := (omreportConvert exC2om).getD ("", exDrive "" "")

/-- C5 counterexample input: a MegaCli drive record that is complete except
for the optional-looking `Drive Temperature` field. -/
def exC5raw : RawDrive :=
  { fields := [("adapter_id", "1"), ("Device Id", "9"),
    ("Firmware state", "Online, Spun Up"),
    ("Predictive Failure Count", "0"), ("Raw Size", "931.512 GB [0x74706db0 Sectors]"),
    ("PD Type", "SAS"), ("Inquiry Data", "SEAGATE ST91000640SS"),
    ("Slot Number", "4")] }

/-- C5 witness input: a complete MegaCli record missing only the FRU field. -/
def exC5fru : RawDrive :=
  { fields := [("adapter_id", "1"), ("Device Id", "9"),
    ("Firmware state", "Online, Spun Up"),
    ("Predictive Failure Count", "0"), ("Raw Size", "931.512 GB [0x74706db0 Sectors]"),
    ("PD Type", "SAS"), ("Inquiry Data", "SEAGATE ST91000640SS"),
    ("Drive Temperature", "28C (82.40 F)"), ("Slot Number", "4")] }

/-- The `PhysicalDrive` MegaCli builds from `exC5fru`. -/
def exC5pd : PhysicalDrive := (megacliConvert exC5fru).getD (exDrive "" "")

/-- An ordinary omreport drive record (no temperature/FRU fields exist in
its grammar at all). -/
def exC5om : List (String × String) :=
  [("adapter_id", "3"), ("ID", "1:0:2"), ("Status", "Ok"), ("Capacity", "465.25 GB (x)"),
   ("Bus Protocol", "SATA"), ("Product ID", "WD5003ABYX"), ("Hot Spare", "No")]

/-- The keyed `PhysicalDrive` omreport builds from `exC5om`. -/
def exC5omkp : String × PhysicalDrive := (omreportConvert exC5om).getD ("", exDrive "" "")

/-- C4 witness: the class-level drive dict before probing. -/
def exC4phy : List (String × PhysicalDrive) :=
  [("sda", exDrive "sda" "Linux RAID"), ("sdb", exDrive "sdb" "Linux RAID")]

/-- C4 witness: device path to drive id map (`devices` in the source). -/
def exC4devices : List (String × String) :=
  [("/dev/sda1", "sda"), ("/dev/sdb1", "sdb")]

/-- C4 witness: external probe oracle — the first device's `mdadm
--examine` hits the `timeout` wrapper (exit code 124), the sibling's
completes normally. -/
def exC4probe : String → Nat × String := fun p =>
  if p = "/dev/sda1" then (124, "")
  else (0, "Device Role : Active device 0\nArray UUID : 11aa:22bb")

/-- C8 witness: a directory listing like the package's own, with only the
software-RAID manager instantiable (only `mdadm` on the search path). -/
def exC8files : List String :=
  ["cli.py", "common.py", "disk_smartctl.py", "raid_md.py", "raid_megacli.py",
   "raid_omreport.py", "raid_storcli.py"]

/-- C8 witness: candidate outcomes — `raid_md.py` instantiates, every other
candidate raises `RaidReportException` from `find_cli_path`. -/
def exC8outcome : String → CandOutcome := fun f =>
  if f = "raid_md.py" then .supported "MdReport" else .unsupported

/-- C9 witness: a raw MegaCli adapter record. -/
def exC9adp : List (String × String) :=
  [("id", "0"), ("Product Name", "PERC H700"), ("Serial No", "S1")]

/-- C9 witness: a second raw adapter record for the second run. -/
def exC9adp2 : List (String × String) :=
  [("id", "1"), ("Product Name", "PERC H800"), ("Serial No", "S2")]

/-- C9 witness: the class-level adapter list after the first run. -/
def exC9run1 : List Adapter := (megacliAdaptersPhase [] [exC9adp]).getD []

/-- C9 witness: the class-level adapter list after the second run. -/
def exC9run2 : List Adapter := (megacliAdaptersPhase exC9run1 [exC9adp2]).getD []

/-- C9 witness: a raw MegaCli logical-drive record. -/
def exC9log : RawLogDrive :=
  { id := "0", adapter_id := "0", physical_drives := ["11"],
    fields := [("RAID Level", "Primary-1, Secondary-0, RAID Level Qualifier-0"),
               ("Size", "1.818 TB"), ("State", "Optimal")] }

/-- C9 witness: the class-level logical-drive list after one run. -/
def exC9logs : List LogicalDrive := (megacliLogPhase [] [exC9log]).getD []

/-- C9 witness: a raw MegaCli physical-drive record. -/
def exC9raw : RawDrive :=
  { fields := [("adapter_id", "0"), ("Device Id", "11"), ("Firmware state", "Online, Spun Up"),
    ("Predictive Failure Count", "0"), ("Raw Size", "1 TB [x]"), ("PD Type", "SATA"),
    ("Inquiry Data", "A"), ("Drive Temperature", "30C"), ("Slot Number", "1")] }

/-- C9 witness: a second raw physical-drive record. -/
def exC9raw2 : RawDrive :=
  { fields := [("adapter_id", "0"), ("Device Id", "12"), ("Firmware state", "Online, Spun Up"),
    ("Predictive Failure Count", "0"), ("Raw Size", "1 TB [x]"), ("PD Type", "SATA"),
    ("Inquiry Data", "B"), ("Drive Temperature", "31C"), ("Slot Number", "2")] }

/-- C9 witness: the class-level drive dict after the first run. -/
def exC9dict : List (String × PhysicalDrive) := (megacliStorePhase [] [exC9raw]).getD []

/-- C9 witness: the class-level drive dict after the second run. -/
def exC9dict2 : List (String × PhysicalDrive) :=
  (megacliStorePhase exC9dict [exC9raw2]).getD []

/-- C9 witness: `mdadm --detail --scan` output for `_check_array_list`. -/
def exC9out : String := "ARRAY /dev/md0 metadata=1.2 UUID=a:b\n"

/-- C9 witness: the class-level `MdReport.arrays` after construction. -/
def exC9arrays : List String := (mdCheckArrayList [] 0 exC9out).toOption.getD []

/-! ## Lemmas: dict and list primitives -/

theorem dictLookup_modify {α : Type} (d : List (String × α)) (k : String) (f : α → α)
    (q : String) :
    dictLookup (dictModify d k f) q =
      if q = k then (dictLookup d q).map f else dictLookup d q := by
  induction d with
  | nil => simp [dictModify, dictLookup]
  | cons e rest ih =>
    obtain ⟨k', v⟩ := e
    by_cases hk : k' = k
    · subst hk
      by_cases hq : k' = q
      · subst hq
        simp [dictModify, dictLookup]
      · have hq' : ¬ q = k' := fun h => hq h.symm
        simp [dictModify, dictLookup, hq, hq']
    · by_cases hq : k' = q
      · subst hq
        have hk' : ¬ k' = k := hk
        have hqk : ¬ k' = k := hk
        simp [dictModify, dictLookup, hk, hqk]
      · simp [dictModify, dictLookup, hk, hq, ih]

theorem dictModify_proj {α β : Type} (d : List (String × α)) (k : String) (f : α → α)
    (g : α → β) (h : ∀ x, g (f x) = g x) :
    (dictModify d k f).map (fun e => (e.1, g e.2)) = d.map (fun e => (e.1, g e.2)) := by
  induction d with
  | nil => simp [dictModify]
  | cons e rest ih =>
    obtain ⟨k', v⟩ := e
    by_cases hk : k' = k
    · simp [dictModify, hk, h]
    · simp [dictModify, hk, ih]

theorem dictModify_keys {α : Type} (d : List (String × α)) (k : String) (f : α → α) :
    (dictModify d k f).map Prod.fst = d.map Prod.fst := by
  have h := dictModify_proj d k f (fun _ => ()) (fun _ => rfl)
  have h1 : ((dictModify d k f).map (fun e => (e.1, ()))).map Prod.fst
      = (d.map (fun e => (e.1, ()))).map Prod.fst := by rw [h]
  simpa [List.map_map, Function.comp] using h1

theorem dictLookup_insert {α : Type} (d : List (String × α)) (k : String) (v : α)
    (q : String) :
    dictLookup (dictInsert d k v) q = if q = k then some v else dictLookup d q := by
  induction d with
  | nil =>
    by_cases hq : q = k
    · simp [dictInsert, dictLookup, hq]
    · have hq' : ¬ k = q := fun h => hq h.symm
      simp [dictInsert, dictLookup, hq, hq']
  | cons e rest ih =>
    obtain ⟨k', v'⟩ := e
    by_cases hk : k' = k
    · subst hk
      by_cases hq : q = k'
      · simp [dictInsert, dictLookup, hq]
      · have hq' : ¬ k' = q := fun h => hq h.symm
        simp [dictInsert, dictLookup, hq, hq']
    · by_cases hq : k' = q
      · subst hq
        have hqk : ¬ k' = k := hk
        simp [dictInsert, dictLookup, hk, hqk]
      · simp [dictInsert, dictLookup, hk, hq, ih]

theorem dictLookup_map_value {α β : Type} (d : List (String × α)) (g : α → β) (q : String) :
    dictLookup (d.map (fun e => (e.1, g e.2))) q = (dictLookup d q).map g := by
  induction d with
  | nil => simp [dictLookup]
  | cons e rest ih =>
    obtain ⟨k', v⟩ := e
    by_cases hq : k' = q
    · simp [dictLookup, hq]
    · simp [dictLookup, hq, ih]

theorem dictLookup_isSome_of_mem {α : Type} (d : List (String × α)) (k : String) (v : α)
    (h : (k, v) ∈ d) : (dictLookup d k).isSome := by
  induction d with
  | nil => simp at h
  | cons e rest ih =>
    obtain ⟨k', v'⟩ := e
    rcases List.mem_cons.mp h with h1 | h1
    · cases h1
      simp [dictLookup]
    · by_cases hq : k' = k
      · simp [dictLookup, hq]
      · simp [dictLookup, hq]
        exact ih h1

theorem dictLookup_none_iff {α : Type} (d : List (String × α)) (k : String) :
    dictLookup d k = none ↔ ∀ v, (k, v) ∉ d := by
  induction d with
  | nil => simp [dictLookup]
  | cons e rest ih =>
    obtain ⟨k', v'⟩ := e
    by_cases hq : k' = k
    · subst hq
      simp only [dictLookup, if_pos rfl]
      constructor
      · intro h
        cases h
      · intro h
        exact absurd (List.mem_cons_self (k', v') rest) (h v')
    · simp only [dictLookup, hq, if_false, ih]
      constructor
      · intro h v hv
        rcases List.mem_cons.mp hv with h1 | h1
        · exact hq ((congrArg Prod.fst h1).symm)
        · exact h v h1
      · intro h v hv
        exact h v (List.mem_cons_of_mem _ hv)

theorem dictLookup_eq_some_of_mem_nodup {α : Type} (d : List (String × α)) (k : String)
    (v : α) (hn : (d.map Prod.fst).Nodup) (h : (k, v) ∈ d) : dictLookup d k = some v := by
  induction d with
  | nil => simp at h
  | cons e rest ih =>
    obtain ⟨k', v'⟩ := e
    simp only [List.map_cons, List.nodup_cons] at hn
    rcases List.mem_cons.mp h with h1 | h1
    · cases h1
      simp [dictLookup]
    · have hk : k' ≠ k := by
        intro hkk
        subst hkk
        exact hn.1 (List.mem_map.mpr ⟨(k', v), h1, rfl⟩)
      simp [dictLookup, hk]
      exact ih hn.2 h1

theorem listModify_getElem? {α : Type} (l : List α) (i : Nat) (f : α → α) (n : Nat) :
    (listModify l i f)[n]? = if n = i then (l[n]?).map f else l[n]? := by
  induction l generalizing i n with
  | nil => simp [listModify]
  | cons x xs ih =>
    cases i with
    | zero =>
      cases n with
      | zero => simp [listModify]
      | succ m => simp [listModify]
    | succ j =>
      cases n with
      | zero => simp [listModify]
      | succ m =>
        simp only [listModify, List.getElem?_cons_succ]
        rw [ih j m]
        by_cases h : m = j
        · simp [h]
        · simp [h, fun hc => h (Nat.succ_injective hc)]

theorem listModify_length {α : Type} (l : List α) (i : Nat) (f : α → α) :
    (listModify l i f).length = l.length := by
  induction l generalizing i with
  | nil => simp [listModify]
  | cons x xs ih =>
    cases i with
    | zero => simp [listModify]
    | succ j => simp [listModify, ih]

/-! ## Lemmas: adapter map (`lastIdx`) -/

theorem lastIdx_isSome_iff (ids : List String) (i : String) :
    (lastIdx ids i).isSome ↔ i ∈ ids := by
  induction ids with
  | nil => simp [lastIdx]
  | cons x rest ih =>
    simp only [lastIdx, List.mem_cons]
    cases h : lastIdx rest i with
    | some j =>
      simp only [Option.isSome_some, true_iff]
      right
      exact ih.mp (by simp [h])
    | none =>
      by_cases hx : x = i
      · simp [hx]
      · simp only [hx, if_false]
        constructor
        · intro hs
          simp at hs
        · intro hmem
          rcases hmem with h1 | h1
          · exact absurd h1.symm hx
          · have := ih.mpr h1
            simp [h] at this

theorem lastIdx_none_iff (ids : List String) (i : String) :
    lastIdx ids i = none ↔ i ∉ ids := by
  rw [← lastIdx_isSome_iff]
  cases lastIdx ids i <;> simp

theorem lastIdx_getElem? (ids : List String) (i : String) (n : Nat)
    (h : lastIdx ids i = some n) : ids[n]? = some i := by
  induction ids generalizing n with
  | nil => simp [lastIdx] at h
  | cons x rest ih =>
    simp only [lastIdx] at h
    cases hr : lastIdx rest i with
    | some j =>
      rw [hr] at h
      cases h
      simpa using ih j hr
    | none =>
      rw [hr] at h
      by_cases hx : x = i
      · rw [if_pos hx] at h
        cases h
        simp [hx]
      · rw [if_neg hx] at h
        cases h

theorem lastIdx_eq_some_iff_of_nodup (ids : List String) (i : String) (n : Nat)
    (hn : ids.Nodup) : lastIdx ids i = some n ↔ ids[n]? = some i := by
  induction ids generalizing n with
  | nil => simp [lastIdx]
  | cons x rest ih =>
    rw [List.nodup_cons] at hn
    simp only [lastIdx]
    cases hr : lastIdx rest i with
    | some j =>
      have hmem : i ∈ rest := (lastIdx_isSome_iff rest i).mp (by simp [hr])
      cases n with
      | zero =>
        simp only [List.getElem?_cons_zero, Option.some_inj]
        constructor
        · intro h
          cases h
        · intro h
          exact absurd (h ▸ hmem) hn.1
      | succ m =>
        simp only [List.getElem?_cons_succ, Option.some_inj]
        rw [← ih m hn.2, hr]
        constructor
        · intro h
          cases h
          rfl
        · intro h
          cases h
          rfl
    | none =>
      have hnmem : i ∉ rest := (lastIdx_none_iff rest i).mp hr
      by_cases hx : x = i
      · subst hx
        rw [if_pos rfl]
        cases n with
        | zero => simp
        | succ m =>
          simp only [List.getElem?_cons_succ, Option.some_inj]
          constructor
          · intro h
            cases h
          · intro h
            exact absurd (List.getElem?_mem h) hnmem
      · rw [if_neg hx]
        cases n with
        | zero =>
          simp only [List.getElem?_cons_zero, Option.some_inj]
          constructor
          · intro h
            cases h
          · intro h
            exact absurd h hx
        | succ m =>
          simp only [List.getElem?_cons_succ]
          constructor
          · intro h
            cases h
          · intro h
            exact absurd (List.getElem?_mem h) hnmem

/-! ## Lemmas: the member back-reference fold -/

theorem multiModify_lookup (ks : List String) (j : Nat)
    (phy : List (String × PhysicalDrive)) (q : String) :
    dictLookup (ks.foldl (fun ph k => dictModify ph k (setLD j)) phy) q =
      if q ∈ ks then (dictLookup phy q).map (setLD j) else dictLookup phy q := by
  induction ks generalizing phy with
  | nil => simp
  | cons k rest ih =>
    simp only [List.foldl_cons]
    rw [ih (dictModify phy k (setLD j))]
    by_cases hmem : q ∈ rest
    · rw [if_pos hmem, if_pos (List.mem_cons_of_mem _ hmem), dictLookup_modify]
      by_cases hqk : q = k
      · rw [if_pos hqk]
        cases dictLookup phy q <;> simp [setLD]
      · rw [if_neg hqk]
    · rw [if_neg hmem, dictLookup_modify]
      by_cases hqk : q = k
      · rw [if_pos hqk, if_pos (by simp [hqk])]
      · have : ¬ q ∈ k :: rest := by simp [hqk, hmem]
        rw [if_neg hqk, if_neg this]

theorem multiModify_proj {β : Type} (ks : List String) (j : Nat)
    (phy : List (String × PhysicalDrive)) (g : PhysicalDrive → β)
    (hg : ∀ x, g (setLD j x) = g x) :
    (ks.foldl (fun ph k => dictModify ph k (setLD j)) phy).map (fun e => (e.1, g e.2)) =
      phy.map (fun e => (e.1, g e.2)) := by
  induction ks generalizing phy with
  | nil => simp
  | cons k rest ih =>
    simp only [List.foldl_cons]
    rw [ih (dictModify phy k (setLD j))]
    exact dictModify_proj phy k (setLD j) g hg

/-! ## Lemmas: lastOwner / ownedIdxs / ownedKeys -/

theorem lastOwner_none_iff (L : List LogicalDrive) (j : Nat) (k : String) :
    lastOwner L j k = none ↔ ∀ ld ∈ L, k ∉ ld.phy_drive_ids := by
  induction L generalizing j with
  | nil => simp [lastOwner]
  | cons ld rest ih =>
    simp only [lastOwner]
    cases hr : lastOwner rest (j + 1) k with
    | some m =>
      simp only [reduceCtorEq, false_iff]
      have := (ih (j + 1)).not.mp (by simp [hr])
      push_neg at this
      obtain ⟨ld', hld', hk⟩ := this
      push_neg
      exact ⟨ld', List.mem_cons_of_mem _ hld', hk⟩
    | none =>
      have hrest := (ih (j + 1)).mp hr
      by_cases hk : k ∈ ld.phy_drive_ids
      · rw [if_pos hk]
        simp only [reduceCtorEq, false_iff]
        push_neg
        exact ⟨ld, List.mem_cons_self _ _, hk⟩
      · rw [if_neg hk]
        constructor
        · intro _ ld' hld'
          rcases List.mem_cons.mp hld' with h1 | h1
          · subst h1
            exact hk
          · exact hrest ld' h1
        · intro _
          rfl

theorem lastOwner_eq (L : List LogicalDrive) (j : Nat) (k : String) (p : Nat)
    (hp : p < L.length) (hkp : k ∈ (L.get ⟨p, hp⟩).phy_drive_ids)
    (hlast : ∀ q (hq : q < L.length), p < q → k ∉ (L.get ⟨q, hq⟩).phy_drive_ids) :
    lastOwner L j k = some (j + p) := by
  induction L generalizing j p with
  | nil => simp at hp
  | cons ld rest ih =>
    simp only [lastOwner]
    cases p with
    | zero =>
      have hnone : lastOwner rest (j + 1) k = none := by
        rw [lastOwner_none_iff]
        intro ld' hld'
        obtain ⟨q, hget⟩ := List.mem_iff_get.mp hld'
        have hq1 : q.1 + 1 < (ld :: rest).length := by
          have := q.isLt
          simp only [List.length_cons]
          omega
        have hnot := hlast (q.1 + 1) hq1 (Nat.succ_pos _)
        have hcons : (ld :: rest).get ⟨q.1 + 1, hq1⟩ = rest.get q := by
          simp [List.get_cons_succ]
        rw [hcons, hget] at hnot
        exact hnot
      rw [hnone]
      simpa using hkp
    | succ p' =>
      have hp' : p' < rest.length := by
        have := hp
        simp only [List.length_cons] at this
        omega
      have hkp' : k ∈ (rest.get ⟨p', hp'⟩).phy_drive_ids := by
        have hcons : (ld :: rest).get ⟨p' + 1, hp⟩ = rest.get ⟨p', hp'⟩ := by
          simp [List.get_cons_succ]
        rw [hcons] at hkp
        exact hkp
      have hrec := ih (j + 1) p' hp' hkp'
        (by
          intro q hq hpq
          have hq1 : q + 1 < (ld :: rest).length := by
            simp only [List.length_cons]
            omega
          have hnot := hlast (q + 1) hq1 (by omega)
          have hcons : (ld :: rest).get ⟨q + 1, hq1⟩ = rest.get ⟨q, hq⟩ := by
            simp [List.get_cons_succ]
          rw [hcons] at hnot
          exact hnot)
      simp only [hrec]
      congr 1
      omega

theorem lastOwner_map (L : List LogicalDrive) (j : Nat) (k : String)
    (f : LogicalDrive → LogicalDrive)
    (hf : ∀ ld, (f ld).phy_drive_ids = ld.phy_drive_ids) :
    lastOwner (L.map f) j k = lastOwner L j k := by
  induction L generalizing j with
  | nil => simp [lastOwner]
  | cons ld rest ih =>
    simp only [List.map_cons, lastOwner, ih, hf]

theorem ownedIdxs_ge (src aids : List String) (j i : Nat) :
    ∀ m ∈ ownedIdxs src aids j i, j ≤ m := by
  induction aids generalizing j with
  | nil => simp [ownedIdxs]
  | cons aid rest ih =>
    intro m hm
    simp only [ownedIdxs, List.mem_append] at hm
    rcases hm with h1 | h1
    · by_cases hc : lastIdx src aid = some i
      · simp [hc] at h1
        omega
      · simp [hc] at h1
    · have := ih (j + 1) m h1
      omega

theorem ownedIdxs_nodup (src aids : List String) (j i : Nat) :
    (ownedIdxs src aids j i).Nodup := by
  induction aids generalizing j with
  | nil => simp [ownedIdxs]
  | cons aid rest ih =>
    simp only [ownedIdxs]
    by_cases hc : lastIdx src aid = some i
    · simp only [hc, if_pos, List.singleton_append, List.nodup_cons]
      refine ⟨fun hmem => ?_, ih (j + 1)⟩
      have := ownedIdxs_ge src rest (j + 1) i j hmem
      omega
    · simp only [hc, if_neg, List.nil_append]
      exact ih (j + 1)

theorem ownedKeys_mem (src : List String) (pl : List (String × String)) (i : Nat)
    (k : String) :
    k ∈ ownedKeys src pl i ↔ ∃ aid, (k, aid) ∈ pl ∧ lastIdx src aid = some i := by
  simp only [ownedKeys, List.mem_map, List.mem_filter]
  constructor
  · rintro ⟨⟨k', aid⟩, ⟨hmem, hdec⟩, rfl⟩
    exact ⟨aid, hmem, by simpa using hdec⟩
  · rintro ⟨aid, hmem, hlast⟩
    exact ⟨(k, aid), ⟨hmem, by simpa using hlast⟩, rfl⟩

theorem ownedKeys_nodup (src : List String) (pl : List (String × String)) (i : Nat)
    (hn : (pl.map Prod.fst).Nodup) : (ownedKeys src pl i).Nodup := by
  have hsub : List.Sublist ((pl.filter (fun e => lastIdx src e.2 = some i)).map Prod.fst)
      (pl.map Prod.fst) := List.Sublist.map _ (List.filter_sublist pl)
  exact hn.sublist hsub

/-! ## Lemmas: `linkLogicalAux` characterization -/

theorem multiModify_isSome (ks : List String) (j : Nat)
    (phy : List (String × PhysicalDrive)) (q : String) :
    (dictLookup (ks.foldl (fun ph k => dictModify ph k (setLD j)) phy) q).isSome =
      (dictLookup phy q).isSome := by
  rw [multiModify_lookup]
  by_cases h : q ∈ ks
  · rw [if_pos h]
    cases dictLookup phy q <;> simp
  · rw [if_neg h]

theorem linkLogicalAux_ok_iff (src : List String) (L : List LogicalDrive)
    (ads : List Adapter) (phy : List (String × PhysicalDrive)) (done : List LogicalDrive)
    (j : Nat) :
    (∃ out, linkLogicalAux src ads phy done j L = .ok out) ↔
      (∀ ld ∈ L, (lastIdx src ld.adapter_id).isSome ∧
        ∀ k ∈ ld.phy_drive_ids, (dictLookup phy k).isSome) := by
  induction L generalizing ads phy done j with
  | nil =>
    simp [linkLogicalAux]
  | cons ld rest ih =>
    cases hli : lastIdx src ld.adapter_id with
    | none =>
      simp only [linkLogicalAux, hli, reduceCtorEq, exists_false, false_iff]
      push_neg
      exact ⟨ld, List.mem_cons_self _ _, fun hc => by simp [hli] at hc⟩
    | some ai =>
      simp only [linkLogicalAux, hli]
      by_cases hall : (ld.phy_drive_ids.all fun k => (dictLookup phy k).isSome) = true
      · rw [if_pos hall, ih]
        constructor
        · intro h ld' hld'
          rcases List.mem_cons.mp hld' with h1 | h1
          · subst h1
            refine ⟨by simp [hli], ?_⟩
            intro k hk
            exact List.all_eq_true.mp hall k hk
          · have h2 := h ld' h1
            refine ⟨h2.1, ?_⟩
            intro k hk
            have h3 := h2.2 k hk
            rwa [multiModify_isSome] at h3
        · intro h ld' hld'
          have h2 := h ld' (List.mem_cons_of_mem _ hld')
          refine ⟨h2.1, ?_⟩
          intro k hk
          rw [multiModify_isSome]
          exact h2.2 k hk
      · rw [if_neg hall]
        simp only [reduceCtorEq, exists_false, false_iff]
        push_neg
        refine ⟨ld, List.mem_cons_self _ _, ?_⟩
        intro _
        rw [List.all_eq_true] at hall
        push_neg at hall
        obtain ⟨k, hk, hks⟩ := hall
        exact ⟨k, hk, by simpa using hks⟩

theorem linkLogicalAux_logs (src : List String) (L : List LogicalDrive)
    (ads : List Adapter) (phy : List (String × PhysicalDrive)) (done : List LogicalDrive)
    (j : Nat) (out : List Adapter × List (String × PhysicalDrive) × List LogicalDrive)
    (h : linkLogicalAux src ads phy done j L = .ok out) :
    out.2.2 = done ++ L.map (fun ld =>
      { ld with adapter := lastIdx src ld.adapter_id,
                physical_drives := some ld.phy_drive_ids }) := by
  induction L generalizing ads phy done j with
  | nil =>
    simp only [linkLogicalAux] at h
    cases h
    simp
  | cons ld rest ih =>
    cases hli : lastIdx src ld.adapter_id with
    | none =>
      simp only [linkLogicalAux, hli] at h
      cases h
    | some ai =>
      simp only [linkLogicalAux, hli] at h
      by_cases hall : (ld.phy_drive_ids.all fun k => (dictLookup phy k).isSome) = true
      · rw [if_pos hall] at h
        have hih := ih _ _ _ _ h
        rw [hih]
        simp [hli]
      · rw [if_neg hall] at h
        cases h

theorem linkLogicalAux_phy (src : List String) (L : List LogicalDrive)
    (ads : List Adapter) (phy : List (String × PhysicalDrive)) (done : List LogicalDrive)
    (j : Nat) (out : List Adapter × List (String × PhysicalDrive) × List LogicalDrive)
    (h : linkLogicalAux src ads phy done j L = .ok out) (q : String) :
    dictLookup out.2.1 q =
      match lastOwner L j q with
      | some m => (dictLookup phy q).map (setLD m)
      | none => dictLookup phy q := by
  induction L generalizing ads phy done j with
  | nil =>
    simp only [linkLogicalAux] at h
    cases h
    simp [lastOwner]
  | cons ld rest ih =>
    cases hli : lastIdx src ld.adapter_id with
    | none =>
      simp only [linkLogicalAux, hli] at h
      cases h
    | some ai =>
      simp only [linkLogicalAux, hli] at h
      by_cases hall : (ld.phy_drive_ids.all fun k => (dictLookup phy k).isSome) = true
      · rw [if_pos hall] at h
        have hih := ih _ _ _ _ h
        rw [hih]
        cases hlo : lastOwner rest (j + 1) q with
        | some m =>
          simp only [lastOwner, hlo, multiModify_lookup]
          by_cases hmem : q ∈ ld.phy_drive_ids
          · rw [if_pos hmem]
            cases dictLookup phy q <;> simp [setLD]
          · rw [if_neg hmem]
        | none =>
          simp only [lastOwner, hlo, multiModify_lookup]
          by_cases hmem : q ∈ ld.phy_drive_ids
          · simp [hmem]
          · simp [hmem]
      · rw [if_neg hall] at h
        cases h

theorem linkLogicalAux_phy_proj {β : Type} (src : List String) (L : List LogicalDrive)
    (ads : List Adapter) (phy : List (String × PhysicalDrive)) (done : List LogicalDrive)
    (j : Nat) (out : List Adapter × List (String × PhysicalDrive) × List LogicalDrive)
    (h : linkLogicalAux src ads phy done j L = .ok out) (g : PhysicalDrive → β)
    (hg : ∀ x m, g (setLD m x) = g x) :
    out.2.1.map (fun e => (e.1, g e.2)) = phy.map (fun e => (e.1, g e.2)) := by
  induction L generalizing ads phy done j with
  | nil =>
    simp only [linkLogicalAux] at h
    cases h
    rfl
  | cons ld rest ih =>
    cases hli : lastIdx src ld.adapter_id with
    | none =>
      simp only [linkLogicalAux, hli] at h
      cases h
    | some ai =>
      simp only [linkLogicalAux, hli] at h
      by_cases hall : (ld.phy_drive_ids.all fun k => (dictLookup phy k).isSome) = true
      · rw [if_pos hall] at h
        have hih := ih _ _ _ _ h
        rw [hih]
        exact multiModify_proj _ _ _ g (fun x => hg x j)
      · rw [if_neg hall] at h
        cases h

theorem linkLogicalAux_ads (src : List String) (L : List LogicalDrive)
    (ads : List Adapter) (phy : List (String × PhysicalDrive)) (done : List LogicalDrive)
    (j : Nat) (out : List Adapter × List (String × PhysicalDrive) × List LogicalDrive)
    (h : linkLogicalAux src ads phy done j L = .ok out) (i : Nat) :
    out.1[i]? = (ads[i]?).map (fun a =>
      { a with logical_drives :=
          a.logical_drives ++ ownedIdxs src (L.map (fun ld => ld.adapter_id)) j i }) := by
  induction L generalizing ads phy done j with
  | nil =>
    simp only [linkLogicalAux] at h
    cases h
    simp only [List.map_nil, ownedIdxs, List.append_nil]
    cases ads[i]? <;> simp
  | cons ld rest ih =>
    cases hli : lastIdx src ld.adapter_id with
    | none =>
      simp only [linkLogicalAux, hli] at h
      cases h
    | some ai =>
      simp only [linkLogicalAux, hli] at h
      by_cases hall : (ld.phy_drive_ids.all fun k => (dictLookup phy k).isSome) = true
      · rw [if_pos hall] at h
        have hih := ih _ _ _ _ h
        rw [hih, listModify_getElem?]
        simp only [List.map_cons, ownedIdxs, hli]
        by_cases hi : i = ai
        · subst hi
          rw [if_pos rfl, if_pos rfl]
          cases ads[i]? with
          | none => simp
          | some a => simp [List.append_assoc]
        · have hne : ¬ (some ai = some (i : Nat)) := by
            intro hc
            exact hi (Option.some_inj.mp hc).symm
          rw [if_neg hi, if_neg hne]
          simp
      · rw [if_neg hall] at h
        cases h

/-! ## Lemmas: `linkPhysicalAux` characterization -/

theorem linkPhysicalAux_ok_iff (src : List String)
    (entries : List (String × PhysicalDrive)) (ads : List Adapter)
    (done : List (String × PhysicalDrive)) :
    (∃ out, linkPhysicalAux src ads done entries = .ok out) ↔
      ∀ e ∈ entries, (lastIdx src e.2.adapter_id).isSome := by
  induction entries generalizing ads done with
  | nil => simp [linkPhysicalAux]
  | cons e rest ih =>
    obtain ⟨k, pd⟩ := e
    cases hli : lastIdx src pd.adapter_id with
    | none =>
      simp only [linkPhysicalAux, hli, reduceCtorEq, exists_false, false_iff]
      push_neg
      exact ⟨(k, pd), List.mem_cons_self _ _, by simp [hli]⟩
    | some ai =>
      simp only [linkPhysicalAux, hli]
      rw [ih]
      constructor
      · intro h e' he'
        rcases List.mem_cons.mp he' with h1 | h1
        · subst h1
          simp [hli]
        · exact h e' h1
      · intro h e' he'
        exact h e' (List.mem_cons_of_mem _ he')

theorem linkPhysicalAux_done (src : List String)
    (entries : List (String × PhysicalDrive)) (ads : List Adapter)
    (done : List (String × PhysicalDrive))
    (out : List Adapter × List (String × PhysicalDrive))
    (h : linkPhysicalAux src ads done entries = .ok out) :
    out.2 = done ++ entries.map (fun e =>
      (e.1, { e.2 with adapter := lastIdx src e.2.adapter_id })) := by
  induction entries generalizing ads done with
  | nil =>
    simp only [linkPhysicalAux] at h
    cases h
    simp
  | cons e rest ih =>
    obtain ⟨k, pd⟩ := e
    cases hli : lastIdx src pd.adapter_id with
    | none =>
      simp only [linkPhysicalAux, hli] at h
      cases h
    | some ai =>
      simp only [linkPhysicalAux, hli] at h
      have hih := ih _ _ h
      rw [hih]
      simp [hli]

theorem linkPhysicalAux_ads (src : List String)
    (entries : List (String × PhysicalDrive)) (ads : List Adapter)
    (done : List (String × PhysicalDrive))
    (out : List Adapter × List (String × PhysicalDrive))
    (h : linkPhysicalAux src ads done entries = .ok out) (i : Nat) :
    out.1[i]? = (ads[i]?).map (fun a =>
      { a with physical_drives := a.physical_drives ++
          ownedKeys src (entries.map (fun e => (e.1, e.2.adapter_id))) i }) := by
  induction entries generalizing ads done with
  | nil =>
    simp only [linkPhysicalAux] at h
    cases h
    simp only [List.map_nil, ownedKeys, List.filter_nil, List.map_nil, List.append_nil]
    cases ads[i]? <;> simp
  | cons e rest ih =>
    obtain ⟨k, pd⟩ := e
    cases hli : lastIdx src pd.adapter_id with
    | none =>
      simp only [linkPhysicalAux, hli] at h
      cases h
    | some ai =>
      simp only [linkPhysicalAux, hli] at h
      have hih := ih _ _ h
      rw [hih, listModify_getElem?]
      simp only [List.map_cons, ownedKeys, List.filter_cons, hli]
      by_cases hi : i = ai
      · subst hi
        rw [if_pos rfl]
        have hdec : (decide (some (i : Nat) = some i)) = true := by simp
        simp only [hdec, List.map_cons]
        cases ads[i]? with
        | none => simp
        | some a => simp [ownedKeys, List.append_assoc]
      · have hne : ¬ (some ai = some (i : Nat)) := by
          intro hc
          exact hi (Option.some_inj.mp hc).symm
        rw [if_neg hi]
        have hia : ¬ ai = i := fun hc => hi hc.symm
        simp [hia, ownedKeys]

/-! ## Lemmas: `connect_data` characterization -/

theorem connect_src (s : RaidState) :
    (s.adapters.map (fun a =>
      { a with physical_drives := ([] : List String),
               logical_drives := ([] : List Nat) })).map (fun a => a.adapter_id) =
      adapterIds s := by
  simp [adapterIds, List.map_map]

theorem forall_adapter_id_congr (phy1 phy2 : List (String × PhysicalDrive))
    (hproj : phy1.map (fun e => (e.1, e.2.adapter_id)) =
      phy2.map (fun e => (e.1, e.2.adapter_id)))
    (P : String → Prop) :
    (∀ e ∈ phy1, P e.2.adapter_id) ↔ (∀ e ∈ phy2, P e.2.adapter_id) := by
  have key : ∀ (l : List (String × PhysicalDrive)),
      (∀ e ∈ l, P e.2.adapter_id) ↔
        (∀ v ∈ (l.map (fun e => (e.1, e.2.adapter_id))).map Prod.snd, P v) := by
    intro l
    simp only [List.map_map]
    constructor
    · intro h v hv
      obtain ⟨e, he, rfl⟩ := List.mem_map.mp hv
      exact h e he
    · intro h e he
      exact h e.2.adapter_id (List.mem_map.mpr ⟨e, he, rfl⟩)
  rw [key phy1, key phy2, hproj]

theorem connect_data_destruct (s s' : RaidState) (h : connect_data s = .ok s') :
    ∃ ads1 phy1 logs1 ads2 phy2,
      linkLogicalAux (adapterIds s)
        (s.adapters.map (fun a =>
          { a with physical_drives := ([] : List String),
                   logical_drives := ([] : List Nat) }))
        s.phy_drives [] 0 s.log_drives = .ok (ads1, phy1, logs1) ∧
      linkPhysicalAux (adapterIds s) ads1 [] phy1 = .ok (ads2, phy2) ∧
      s' = { adapters := ads2.map (fun a =>
              { a with spare_physical_drives := a.physical_drives.filter (fun k =>
                  match dictLookup phy2 k with
                  | some pd => pd.logical_drive.isNone
                  | none => true) }),
             phy_drives := phy2,
             log_drives := logs1 } := by
  rw [connect_data] at h
  rw [connect_src] at h
  split at h
  · cases h
  · rename_i out1 ads1 phy1 logs1 heq
    split at h
    · cases h
    · rename_i out2 ads2 phy2 heq2
      cases h
      exact ⟨ads1, phy1, logs1, ads2, phy2, heq, heq2, rfl⟩

theorem connect_data_logs (s s' : RaidState) (h : connect_data s = .ok s') :
    s'.log_drives = s.log_drives.map (fun ld =>
      { ld with adapter := lastIdx (adapterIds s) ld.adapter_id,
                physical_drives := some ld.phy_drive_ids }) := by
  obtain ⟨ads1, phy1, logs1, ads2, phy2, heq, heq2, rfl⟩ := connect_data_destruct s s' h
  have := linkLogicalAux_logs _ _ _ _ _ _ _ heq
  simpa using this

theorem connect_data_phy_proj (s s' : RaidState) (h : connect_data s = .ok s') :
    s'.phy_drives.map (fun e => (e.1, e.2.adapter_id)) =
      s.phy_drives.map (fun e => (e.1, e.2.adapter_id)) := by
  obtain ⟨ads1, phy1, logs1, ads2, phy2, heq, heq2, rfl⟩ := connect_data_destruct s s' h
  have hdone := linkPhysicalAux_done _ _ _ _ _ heq2
  simp only [List.nil_append] at hdone
  have h1 : phy2.map (fun e => (e.1, e.2.adapter_id)) =
      phy1.map (fun e => (e.1, e.2.adapter_id)) := by
    rw [hdone]
    simp [List.map_map]
  have h2 := linkLogicalAux_phy_proj _ _ _ _ _ _ _ heq
    (fun pd => pd.adapter_id) (fun x m => rfl)
  simp only []
  rw [h1, h2]

theorem connect_data_keys (s s' : RaidState) (h : connect_data s = .ok s') :
    s'.phy_drives.map Prod.fst = s.phy_drives.map Prod.fst := by
  have hproj := connect_data_phy_proj s s' h
  have h1 : s'.phy_drives.map Prod.fst =
      (s'.phy_drives.map (fun e => (e.1, e.2.adapter_id))).map Prod.fst := by
    simp [List.map_map]
  have h2 : s.phy_drives.map Prod.fst =
      (s.phy_drives.map (fun e => (e.1, e.2.adapter_id))).map Prod.fst := by
    simp [List.map_map]
  rw [h1, h2, hproj]

theorem connect_data_phy_lookup (s s' : RaidState) (h : connect_data s = .ok s')
    (q : String) :
    dictLookup s'.phy_drives q = (dictLookup s.phy_drives q).map (fun pd =>
      { pd with adapter := lastIdx (adapterIds s) pd.adapter_id,
                logical_drive :=
                  match lastOwner s.log_drives 0 q with
                  | some m => some m
                  | none => pd.logical_drive }) := by
  obtain ⟨ads1, phy1, logs1, ads2, phy2, heq, heq2, rfl⟩ := connect_data_destruct s s' h
  have hdone := linkPhysicalAux_done _ _ _ _ _ heq2
  simp only [List.nil_append] at hdone
  have hphy1 := linkLogicalAux_phy _ _ _ _ _ _ _ heq q
  have hl2 : dictLookup phy2 q = (dictLookup phy1 q).map
      (fun pd => { pd with adapter := lastIdx (adapterIds s) pd.adapter_id }) := by
    rw [hdone]
    exact dictLookup_map_value phy1
      (fun pd => { pd with adapter := lastIdx (adapterIds s) pd.adapter_id }) q
  show dictLookup phy2 q = _
  rw [hl2, hphy1]
  cases hlo : lastOwner s.log_drives 0 q with
  | some m =>
    cases dictLookup s.phy_drives q <;> simp [setLD]
  | none =>
    cases dictLookup s.phy_drives q <;> simp

theorem connect_data_ads (s s' : RaidState) (h : connect_data s = .ok s') (i : Nat) :
    s'.adapters[i]? = (s.adapters[i]?).map (fun a =>
      { a with
          logical_drives :=
            ownedIdxs (adapterIds s) (s.log_drives.map (fun ld => ld.adapter_id)) 0 i,
          physical_drives :=
            ownedKeys (adapterIds s) (s.phy_drives.map (fun e => (e.1, e.2.adapter_id))) i,
          spare_physical_drives :=
            (ownedKeys (adapterIds s) (s.phy_drives.map (fun e => (e.1, e.2.adapter_id))) i).filter
              (fun k => match dictLookup s'.phy_drives k with
                | some pd => pd.logical_drive.isNone
                | none => true) }) := by
  obtain ⟨ads1, phy1, logs1, ads2, phy2, heq, heq2, rfl⟩ := connect_data_destruct s s' h
  have hads1 := linkLogicalAux_ads _ _ _ _ _ _ _ heq i
  have hads2 := linkPhysicalAux_ads _ _ _ _ _ heq2 i
  have hproj1 := linkLogicalAux_phy_proj _ _ _ _ _ _ _ heq
    (fun pd => pd.adapter_id) (fun x m => rfl)
  simp only [List.getElem?_map, hads2, hproj1, hads1, List.getElem?_map]
  cases s.adapters[i]? with
  | none => rfl
  | some a => simp

theorem connect_data_ok_iff (s : RaidState) :
    (∃ s', connect_data s = .ok s') ↔
      ((∀ ld ∈ s.log_drives, (lastIdx (adapterIds s) ld.adapter_id).isSome ∧
         ∀ k ∈ ld.phy_drive_ids, (dictLookup s.phy_drives k).isSome) ∧
       ∀ e ∈ s.phy_drives, (lastIdx (adapterIds s) e.2.adapter_id).isSome) := by
  constructor
  · rintro ⟨s', h⟩
    obtain ⟨ads1, phy1, logs1, ads2, phy2, heq, heq2, rfl⟩ := connect_data_destruct s s' h
    constructor
    · exact (linkLogicalAux_ok_iff _ _ _ _ _ _).mp ⟨_, heq⟩
    · have h2 := (linkPhysicalAux_ok_iff _ _ _ _).mp ⟨_, heq2⟩
      have hproj := linkLogicalAux_phy_proj _ _ _ _ _ _ _ heq
        (fun pd => pd.adapter_id) (fun x m => rfl)
      exact (forall_adapter_id_congr phy1 s.phy_drives hproj
        (fun v => (lastIdx (adapterIds s) v).isSome)).mp h2
  · rintro ⟨h1, h2⟩
    obtain ⟨out1, heq⟩ := (linkLogicalAux_ok_iff (adapterIds s) s.log_drives
      (s.adapters.map (fun a =>
        { a with physical_drives := ([] : List String),
                 logical_drives := ([] : List Nat) }))
      s.phy_drives [] 0).mpr h1
    obtain ⟨ads1, phy1, logs1⟩ := out1
    have hproj := linkLogicalAux_phy_proj _ _ _ _ _ _ _ heq
      (fun pd => pd.adapter_id) (fun x m => rfl)
    have h2' := (forall_adapter_id_congr phy1 s.phy_drives hproj
      (fun v => (lastIdx (adapterIds s) v).isSome)).mpr h2
    obtain ⟨out2, heq2⟩ := (linkPhysicalAux_ok_iff (adapterIds s) phy1 ads1 []).mpr h2'
    obtain ⟨ads2, phy2⟩ := out2
    rw [connect_data, connect_src]
    simp only [heq, heq2]
    exact ⟨_, rfl⟩

theorem adapterResolves_iff (l : List Adapter) (i : String) :
    adapterResolves l i = true ↔ (lastIdx (l.map (fun a => a.adapter_id)) i).isSome := by
  rw [lastIdx_isSome_iff]
  simp [adapterResolves, List.any_eq_true, List.mem_map]

theorem allResolved_iff (s : RaidState) :
    allResolved s = true ↔
      ((∀ ld ∈ s.log_drives, (lastIdx (adapterIds s) ld.adapter_id).isSome ∧
         ∀ k ∈ ld.phy_drive_ids, (dictLookup s.phy_drives k).isSome) ∧
       ∀ e ∈ s.phy_drives, (lastIdx (adapterIds s) e.2.adapter_id).isSome) := by
  simp only [allResolved, Bool.and_eq_true, List.all_eq_true, adapterIds]
  constructor
  · rintro ⟨ha, hb⟩
    exact ⟨fun ld hld => ⟨(adapterResolves_iff _ _).mp (ha ld hld).1, (ha ld hld).2⟩,
           fun e he => (adapterResolves_iff _ _).mp (hb e he)⟩
  · rintro ⟨ha, hb⟩
    exact ⟨fun ld hld => ⟨(adapterResolves_iff _ _).mpr (ha ld hld).1, (ha ld hld).2⟩,
           fun e he => (adapterResolves_iff _ _).mpr (hb e he)⟩

theorem connect_data_isOk_iff_allResolved (s : RaidState) :
    (∃ s', connect_data s = .ok s') ↔ allResolved s = true := by
  rw [connect_data_ok_iff, allResolved_iff]

/-! ## Claim C1 -/

/-- **C1, counterexample.**  The claim asserts that after `connect_data`
every adapter's `physical_drives` and `spare_physical_drives` are
*disjoint*.  On a structurally valid input with one adapter and one parsed
drive that belongs to no logical drive, linking succeeds and the drive
appears in *both* lists (the source computes the spare list as a filter of
`adapter.physical_drives`), so the two sets intersect. -/
theorem c1_counterexample :
    (connect_data exC1).toOption.map (fun s =>
      s.adapters.map (fun a => (a.physical_drives, a.spare_physical_drives))) =
      some [(["d"], ["d"])] ∧
    ¬ List.Disjoint (["d"] : List String) ["d"] :=
  ⟨rfl, fun h => h (List.mem_singleton_self "d") (List.mem_singleton_self "d")⟩

/-- **C1, amended.**  After the Topology Linker (`connect_data`) runs on
structurally valid parser output (adapter ids distinct, linking
succeeding), for every adapter the set `spare_physical_drives` is a
*subset* of `physical_drives` (not disjoint from it), and
`physical_drives` itself equals the set of all physical drives parsed for
that adapter — hence the union of the two sets equals the set of all
drives parsed for that adapter, but they are disjoint only when the
adapter has no spares. -/
theorem c1_amended_spares_subset_and_union (s s' : RaidState)
    (hok : connect_data s = .ok s') (hids : (adapterIds s).Nodup) :
    ∀ a ∈ s'.adapters,
      (∀ k ∈ a.spare_physical_drives, k ∈ a.physical_drives) ∧
      (∀ k, k ∈ a.physical_drives ↔
        ∃ pd, (k, pd) ∈ s.phy_drives ∧ pd.adapter_id = a.adapter_id) := by
  intro a ha
  obtain ⟨i, hilen, hia⟩ := List.mem_iff_getElem.mp ha
  have hchar := connect_data_ads s s' hok i
  have hgi : s'.adapters[i]? = some a := by
    rw [List.getElem?_eq_getElem hilen, hia]
  rw [hgi] at hchar
  cases hsa : s.adapters[i]? with
  | none =>
    rw [hsa] at hchar
    cases hchar
  | some a0 =>
    rw [hsa] at hchar
    simp only [Option.map_some', Option.some.injEq] at hchar
    have hidi : (adapterIds s)[i]? = some a0.adapter_id := by
      simp only [adapterIds, List.getElem?_map, hsa, Option.map_some']
    have hphys : a.physical_drives =
        ownedKeys (adapterIds s) (s.phy_drives.map (fun e => (e.1, e.2.adapter_id))) i := by
      rw [hchar]
    have haid : a.adapter_id = a0.adapter_id := by
      rw [hchar]
    refine ⟨?_, ?_⟩
    · intro k hk
      rw [hchar] at hk ⊢
      exact List.mem_of_mem_filter hk
    · intro k
      rw [hphys, ownedKeys_mem]
      constructor
      · rintro ⟨aid, hmem, hlastk⟩
        obtain ⟨e, he, heq⟩ := List.mem_map.mp hmem
        have h1 := (lastIdx_eq_some_iff_of_nodup _ _ _ hids).mp hlastk
        rw [hidi] at h1
        have haid2 : aid = a0.adapter_id := (Option.some_inj.mp h1).symm
        have hk1 : e.1 = k := congrArg Prod.fst heq
        have hk2 : e.2.adapter_id = aid := congrArg Prod.snd heq
        refine ⟨e.2, ?_, ?_⟩
        · rw [← hk1]
          exact he
        · rw [haid, ← haid2]
          exact hk2
      · rintro ⟨pd, hpd, hpaid⟩
        refine ⟨pd.adapter_id, List.mem_map.mpr ⟨(k, pd), hpd, rfl⟩, ?_⟩
        rw [lastIdx_eq_some_iff_of_nodup _ _ _ hids, hidi, hpaid, haid]

/-- **C1, amended, witness.** -/
theorem c1_amended_witness :
    (connect_data exC1 = .ok exC1linked ∧ (adapterIds exC1).Nodup) ∧
    (∀ a ∈ exC1linked.adapters,
      (∀ k ∈ a.spare_physical_drives, k ∈ a.physical_drives) ∧
      (∀ k, k ∈ a.physical_drives ↔
        ∃ pd, (k, pd) ∈ exC1.phy_drives ∧ pd.adapter_id = a.adapter_id)) :=
  ⟨⟨by rfl, by decide⟩,
   c1_amended_spares_subset_and_union exC1 exC1linked (by rfl) (by decide)⟩

/-! ## Claim C3 -/

/-- **C3.**  If any `LogicalDrive.adapter_id` or `PhysicalDrive.adapter_id`
has no matching parsed adapter, or any id in a logical drive's
`phy_drive_ids` has no matching parsed physical drive, then
`connect_data` raises (`KeyError`): linking ends in an error and never
substitutes a default. -/
theorem c3_unresolved_reference_raises (s : RaidState)
    (h : (∃ ld ∈ s.log_drives, ∀ a ∈ s.adapters, a.adapter_id ≠ ld.adapter_id) ∨
         (∃ ld ∈ s.log_drives, ∃ k ∈ ld.phy_drive_ids, dictLookup s.phy_drives k = none) ∨
         (∃ e ∈ s.phy_drives, ∀ a ∈ s.adapters, a.adapter_id ≠ e.2.adapter_id)) :
    ∃ msg, connect_data s = .error msg := by
  have hnot : ¬ ∃ s', connect_data s = .ok s' := by
    intro hs
    obtain ⟨hA, hB⟩ := (connect_data_ok_iff s).mp hs
    rcases h with ⟨ld, hld, hno⟩ | ⟨ld, hld, k, hk, hnone⟩ | ⟨e, he, hno⟩
    · have h1 := (hA ld hld).1
      rw [lastIdx_isSome_iff] at h1
      simp only [adapterIds] at h1
      obtain ⟨a, ha, haid⟩ := List.mem_map.mp h1
      exact hno a ha haid
    · have h2 := (hA ld hld).2 k hk
      rw [hnone] at h2
      simp at h2
    · have h3 := hB e he
      rw [lastIdx_isSome_iff] at h3
      simp only [adapterIds] at h3
      obtain ⟨a, ha, haid⟩ := List.mem_map.mp h3
      exact hno a ha haid
  cases hc : connect_data s with
  | ok s' => exact absurd ⟨s', hc⟩ hnot
  | error msg => exact ⟨msg, rfl⟩

/-- **C3, witness.** -/
theorem c3_witness :
    ((∃ ld ∈ exC3.log_drives, ∀ a ∈ exC3.adapters, a.adapter_id ≠ ld.adapter_id) ∨
     (∃ ld ∈ exC3.log_drives, ∃ k ∈ ld.phy_drive_ids, dictLookup exC3.phy_drives k = none) ∨
     (∃ e ∈ exC3.phy_drives, ∀ a ∈ exC3.adapters, a.adapter_id ≠ e.2.adapter_id)) ∧
    (∃ msg, connect_data exC3 = .error msg) :=
  ⟨by decide, c3_unresolved_reference_raises exC3 (by decide)⟩

/-! ## Claim C10 -/

/-- **C10.**  When the same physical-drive key appears in the
`phy_drive_ids` of two different logical drives (positions `i < j`, with no
later logical drive containing it), the Topology Linker raises no error on
otherwise-resolvable input: both logical drives' resolved
`physical_drives` lists contain the key, the drive's `logical_drive`
back-reference points at the logical drive linked later in iteration order
(`j`), and the drive is not counted as a spare of any adapter. -/
theorem c10_shared_member (s : RaidState) (k : String) (i j : Nat)
    (hres : allResolved s = true)
    (hi : i < s.log_drives.length) (hj : j < s.log_drives.length) (hij : i < j)
    (hki : k ∈ (s.log_drives.get ⟨i, hi⟩).phy_drive_ids)
    (hkj : k ∈ (s.log_drives.get ⟨j, hj⟩).phy_drive_ids)
    (hnolater : ∀ m (hm : m < s.log_drives.length), j < m →
      k ∉ (s.log_drives.get ⟨m, hm⟩).phy_drive_ids) :
    ∃ s', connect_data s = .ok s' ∧
      ((s'.log_drives[i]?).map (fun ld => ld.physical_drives) =
        some (some (s.log_drives.get ⟨i, hi⟩).phy_drive_ids)) ∧
      ((s'.log_drives[j]?).map (fun ld => ld.physical_drives) =
        some (some (s.log_drives.get ⟨j, hj⟩).phy_drive_ids)) ∧
      ((dictLookup s'.phy_drives k).map (fun pd => pd.logical_drive) = some (some j)) ∧
      (∀ a ∈ s'.adapters, k ∉ a.spare_physical_drives) := by
  obtain ⟨s', hok⟩ := (connect_data_isOk_iff_allResolved s).mpr hres
  have hlogs := connect_data_logs s s' hok
  have hlo : lastOwner s.log_drives 0 k = some j := by
    have := lastOwner_eq s.log_drives 0 k j hj hkj hnolater
    simpa using this
  have hksome : (dictLookup s.phy_drives k).isSome := by
    have hA := ((allResolved_iff s).mp hres).1
    exact (hA _ (List.get_mem s.log_drives j hj)).2 k hkj
  obtain ⟨pd0, hpd0⟩ := Option.isSome_iff_exists.mp hksome
  have hlu := connect_data_phy_lookup s s' hok k
  simp only [hpd0, hlo, Option.map_some'] at hlu
  refine ⟨s', hok, ?_, ?_, ?_, ?_⟩
  · rw [hlogs, List.getElem?_map, List.getElem?_eq_getElem hi]
    rfl
  · rw [hlogs, List.getElem?_map, List.getElem?_eq_getElem hj]
    rfl
  · rw [hlu]
    rfl
  · intro a ha hkspare
    obtain ⟨i', hilen, hia⟩ := List.mem_iff_getElem.mp ha
    have hchar := connect_data_ads s s' hok i'
    have hgi : s'.adapters[i']? = some a := by
      rw [List.getElem?_eq_getElem hilen, hia]
    rw [hgi] at hchar
    cases hsa : s.adapters[i']? with
    | none =>
      rw [hsa] at hchar
      cases hchar
    | some a0 =>
      rw [hsa] at hchar
      simp only [Option.map_some', Option.some.injEq] at hchar
      rw [hchar] at hkspare
      have hpred := (List.mem_filter.mp hkspare).2
      simp only [hlu] at hpred
      cases hpred

/-- **C10, witness.**  `exC10` has drive `d` in both logical drives. -/
theorem c10_witness :
    (allResolved exC10 = true ∧
     0 < exC10.log_drives.length ∧ 1 < exC10.log_drives.length) ∧
    (∃ s', connect_data exC10 = .ok s' ∧
      ((s'.log_drives[0]?).map (fun ld => ld.physical_drives) =
        some (some (exC10.log_drives.get ⟨0, by decide⟩).phy_drive_ids)) ∧
      ((s'.log_drives[1]?).map (fun ld => ld.physical_drives) =
        some (some (exC10.log_drives.get ⟨1, by decide⟩).phy_drive_ids)) ∧
      ((dictLookup s'.phy_drives "d").map (fun pd => pd.logical_drive) = some (some 1)) ∧
      (∀ a ∈ s'.adapters, "d" ∉ a.spare_physical_drives)) :=
  ⟨⟨by decide, by decide, by decide⟩,
   c10_shared_member exC10 "d" 0 1 (by decide) (by decide) (by decide) (by decide)
     (by decide) (by decide)
     (by
       intro m hm hjm
       have : m < 2 := hm
       exact absurd hjm (by omega))⟩

/-! ## Claim C7 -/

/-- **C7.**  Running the Topology Linker twice on the same three raw
collections yields the same graph: when `connect_data s = ok s₁`, a second
run on `s₁` succeeds and each adapter's `logical_drives`,
`physical_drives` and `spare_physical_drives` are identical (as lists) to
those after the first run, and (for structurally valid input, distinct
dict keys) contain no duplicated entries. -/
theorem c7_connect_data_idempotent (s s₁ : RaidState)
    (hok : connect_data s = .ok s₁)
    (hkeys : (s.phy_drives.map Prod.fst).Nodup) :
    ∃ s₂, connect_data s₁ = .ok s₂ ∧
      s₂.adapters.map (fun a =>
        (a.logical_drives, a.physical_drives, a.spare_physical_drives)) =
      s₁.adapters.map (fun a =>
        (a.logical_drives, a.physical_drives, a.spare_physical_drives)) ∧
      ∀ a ∈ s₁.adapters, a.logical_drives.Nodup ∧ a.physical_drives.Nodup ∧
        a.spare_physical_drives.Nodup := by
  have hids : adapterIds s₁ = adapterIds s := by
    apply List.ext_getElem?
    intro i
    simp only [adapterIds, List.getElem?_map, connect_data_ads s s₁ hok i]
    cases s.adapters[i]? <;> rfl
  have hlogsaids : s₁.log_drives.map (fun ld => ld.adapter_id) =
      s.log_drives.map (fun ld => ld.adapter_id) := by
    rw [connect_data_logs s s₁ hok, List.map_map]
    rfl
  have hphyproj := connect_data_phy_proj s s₁ hok
  have hlastown : ∀ q, lastOwner s₁.log_drives 0 q = lastOwner s.log_drives 0 q := by
    intro q
    rw [connect_data_logs s s₁ hok]
    exact lastOwner_map _ _ _ _ (fun ld => rfl)
  -- the second run succeeds
  have hres := (connect_data_ok_iff s).mp ⟨s₁, hok⟩
  have hres1 : (∀ ld ∈ s₁.log_drives, (lastIdx (adapterIds s₁) ld.adapter_id).isSome ∧
      ∀ k ∈ ld.phy_drive_ids, (dictLookup s₁.phy_drives k).isSome) ∧
      ∀ e ∈ s₁.phy_drives, (lastIdx (adapterIds s₁) e.2.adapter_id).isSome := by
    constructor
    · intro ld1 hld1
      rw [connect_data_logs s s₁ hok] at hld1
      obtain ⟨ld, hld, rfl⟩ := List.mem_map.mp hld1
      refine ⟨by rw [hids]; exact (hres.1 ld hld).1, ?_⟩
      intro k hk
      rw [connect_data_phy_lookup s s₁ hok k]
      have := (hres.1 ld hld).2 k hk
      cases hq : dictLookup s.phy_drives k with
      | none => rw [hq] at this; cases this
      | some pd => simp
    · rw [hids]
      exact (forall_adapter_id_congr s₁.phy_drives s.phy_drives hphyproj
        (fun v => (lastIdx (adapterIds s) v).isSome)).mpr hres.2
  obtain ⟨s₂, hok2⟩ := (connect_data_ok_iff s₁).mpr hres1
  -- the spare-filter predicates of the two runs agree pointwise
  have hpred : ∀ q,
      (match dictLookup s₂.phy_drives q with
        | some pd => pd.logical_drive.isNone
        | none => true) =
      (match dictLookup s₁.phy_drives q with
        | some pd => pd.logical_drive.isNone
        | none => true) := by
    intro q
    have hlu2 := connect_data_phy_lookup s₁ s₂ hok2 q
    have hlu1 := connect_data_phy_lookup s s₁ hok q
    rw [hlu2]
    cases hq1 : dictLookup s₁.phy_drives q with
    | none => simp
    | some pd =>
      simp only [Option.map_some']
      rw [hlu1] at hq1
      cases hq0 : dictLookup s.phy_drives q with
      | none =>
        rw [hq0] at hq1
        cases hq1
      | some pd0 =>
        rw [hq0] at hq1
        simp only [Option.map_some', Option.some.injEq] at hq1
        subst hq1
        cases hc : lastOwner s.log_drives 0 q with
        | some m => simp [hlastown q, hc]
        | none => simp [hlastown q, hc]
  refine ⟨s₂, hok2, ?_, ?_⟩
  · apply List.ext_getElem?
    intro i
    simp only [List.getElem?_map, connect_data_ads s₁ s₂ hok2 i]
    cases hsa : s₁.adapters[i]? with
    | none => rfl
    | some a1 =>
      simp only [Option.map_some']
      congr 1
      show (_, _, _) = (a1.logical_drives, a1.physical_drives, a1.spare_physical_drives)
      have h1i := connect_data_ads s s₁ hok i
      rw [hsa] at h1i
      cases hs0 : s.adapters[i]? with
      | none =>
        rw [hs0] at h1i
        cases h1i
      | some a0 =>
        rw [hs0] at h1i
        simp only [Option.map_some', Option.some.injEq] at h1i
        have e1 : a1.logical_drives =
            ownedIdxs (adapterIds s) (s.log_drives.map (fun ld => ld.adapter_id)) 0 i := by
          rw [h1i]
        have e2 : a1.physical_drives =
            ownedKeys (adapterIds s) (s.phy_drives.map (fun e => (e.1, e.2.adapter_id))) i := by
          rw [h1i]
        have e3 : a1.spare_physical_drives =
            (ownedKeys (adapterIds s) (s.phy_drives.map (fun e => (e.1, e.2.adapter_id))) i).filter
              (fun k => match dictLookup s₁.phy_drives k with
                | some pd => pd.logical_drive.isNone
                | none => true) := by
          rw [h1i]
        rw [e1, e2, e3, hids, hlogsaids, hphyproj]
        rw [List.filter_congr (fun k _ => hpred k)]
  · intro a ha
    obtain ⟨i, hilen, hia⟩ := List.mem_iff_getElem.mp ha
    have h1i := connect_data_ads s s₁ hok i
    have hgi : s₁.adapters[i]? = some a := by
      rw [List.getElem?_eq_getElem hilen, hia]
    rw [hgi] at h1i
    cases hs0 : s.adapters[i]? with
    | none =>
      rw [hs0] at h1i
      cases h1i
    | some a0 =>
      rw [hs0] at h1i
      simp only [Option.map_some', Option.some.injEq] at h1i
      have hplkeys : ((s.phy_drives.map (fun e => (e.1, e.2.adapter_id))).map Prod.fst).Nodup := by
        rw [List.map_map]
        exact hkeys
      refine ⟨?_, ?_, ?_⟩
      · rw [h1i]
        exact ownedIdxs_nodup _ _ _ _
      · rw [h1i]
        exact ownedKeys_nodup _ _ _ hplkeys
      · rw [h1i]
        exact (ownedKeys_nodup _ _ _ hplkeys).filter _

/-- **C7, witness.** -/
theorem c7_witness :
    (connect_data exC7 = .ok exC7linked ∧ (exC7.phy_drives.map Prod.fst).Nodup) ∧
    (∃ s₂, connect_data exC7linked = .ok s₂ ∧
      s₂.adapters.map (fun a =>
        (a.logical_drives, a.physical_drives, a.spare_physical_drives)) =
      exC7linked.adapters.map (fun a =>
        (a.logical_drives, a.physical_drives, a.spare_physical_drives)) ∧
      ∀ a ∈ exC7linked.adapters, a.logical_drives.Nodup ∧ a.physical_drives.Nodup ∧
        a.spare_physical_drives.Nodup) :=
  ⟨⟨by rfl, by decide⟩,
   c7_connect_data_idempotent exC7 exC7linked (by rfl) (by decide)⟩

/-! ## Lemmas: vendor record conversion -/

theorem megacliStorePhase_mono (ph : List (String × PhysicalDrive)) (ds : List RawDrive)
    (ph' : List (String × PhysicalDrive)) (h : megacliStorePhase ph ds = some ph')
    (q : String) (hq : (dictLookup ph q).isSome) : (dictLookup ph' q).isSome := by
  induction ds generalizing ph with
  | nil =>
    simp only [megacliStorePhase, List.foldlM_nil] at h
    cases h
    exact hq
  | cons d rest ih =>
    simp only [megacliStorePhase, List.foldlM_cons, Option.map_eq_map, Option.bind_eq_bind,
      Option.bind_eq_some, Option.map_eq_some'] at h
    obtain ⟨ph1, ⟨pd, hconv, hph1⟩, h2⟩ := h
    refine ih (dictInsert ph pd.drive_id pd) ?_ ?_
    · rw [← hph1] at h2
      exact h2
    · rw [dictLookup_insert]
      by_cases hqk : q = pd.drive_id
      · simp [hqk]
      · rw [if_neg hqk]
        exact hq

/-- **C2, counterexample.**  A MegaCli record whose `Firmware state` is
recognized by no mapping entry (neither a healthy value nor containing the
failure marker `'bad'`) and whose predictive-failure counter is zero is
classified `STATUS_GOOD`, not `STATUS_FAILED`: unmapped raw states default
to healthy, not to failed. -/
theorem c2_counterexample :
    (megacliConvert exC2raw).map (fun pd => pd.status) = some STATUS_GOOD ∧
    STATUS_GOOD ≠ STATUS_FAILED :=
  ⟨rfl, by decide⟩

/-- **C2, amended.**  The status classifiers default to `GOOD`, not
`FAILED`: MegaCli assigns `FAILED` exactly when `'bad'` occurs in
`Firmware state` (else `FAILING` exactly when the predictive-failure count
is not `'0'`, else `GOOD`); omreport assigns `FAILED` exactly when
`Status` is `'Critical'` and `GOOD` otherwise.  A raw health value
unrecognized by either mapping is therefore classified `GOOD`. -/
theorem c2_amended_unknown_defaults_good :
    (∀ (d : RawDrive) (pd : PhysicalDrive) (fw pfc : String),
      megacliConvert d = some pd →
      dictLookup d.fields "Firmware state" = some fw →
      dictLookup d.fields "Predictive Failure Count" = some pfc →
      pd.status = if pyIn "bad" fw then STATUS_FAILED
        else if pfc ≠ "0" then STATUS_FAILING else STATUS_GOOD) ∧
    (∀ (d : List (String × String)) (kp : String × PhysicalDrive) (st : String),
      omreportConvert d = some kp →
      dictLookup d "Status" = some st →
      kp.2.status = if st = "Critical" then STATUS_FAILED else STATUS_GOOD) := by
  constructor
  · intro d pd fw pfc h hfw hpfc
    simp only [megacliConvert, Option.bind_eq_bind, Option.bind_eq_some, Option.pure_def,
      Option.some.injEq] at h
    obtain ⟨a1, ha1, a2, ha2, a3, ha3, a4, ha4, a5, ha5, a6, ha6, a7, ha7, a8, ha8,
      a9, ha9, a10, ha10, hpd⟩ := h
    rw [hpfc] at ha1
    rw [hfw] at ha2
    cases ha1
    cases ha2
    rw [← hpd]
  · intro d kp st h hst
    simp only [omreportConvert, Option.bind_eq_bind, Option.bind_eq_some, Option.pure_def,
      Option.some.injEq] at h
    obtain ⟨a1, ha1, a2, ha2, a3, ha3, a4, ha4, a5, ha5, a6, ha6, a7, ha7, a8, ha8, hpd⟩ := h
    rw [hst] at ha3
    cases ha3
    rw [← hpd]

/-- **C2, amended, witness.** -/
theorem c2_amended_witness :
    (megacliConvert exC2raw = some exC2pd ∧
     dictLookup exC2raw.fields "Firmware state" = some "Unrecognized-state" ∧
     dictLookup exC2raw.fields "Predictive Failure Count" = some "0" ∧
     omreportConvert exC2om = some exC2omkp ∧
     dictLookup exC2om "Status" = some "Unknown") ∧
    (exC2pd.status = if pyIn "bad" "Unrecognized-state" then STATUS_FAILED
       else if ("0" : String) ≠ "0" then STATUS_FAILING else STATUS_GOOD) ∧
    (exC2omkp.2.status =
       if ("Unknown" : String) = "Critical" then STATUS_FAILED else STATUS_GOOD) :=
  ⟨⟨rfl, rfl, rfl, rfl, rfl⟩,
   c2_amended_unknown_defaults_good.1 exC2raw exC2pd "Unrecognized-state" "0" rfl rfl rfl,
   c2_amended_unknown_defaults_good.2 exC2om exC2omkp "Unknown" rfl rfl⟩

/-! ## Claim C5 -/

/-- **C5, counterexample.**  A MegaCli record missing only the
`Drive Temperature` field makes the conversion raise (`KeyError`, modelled
as `none`): the missing temperature is *not* tolerated with an empty
substitute. -/
theorem c5_counterexample :
    dictLookup exC5raw.fields "Drive Temperature" = none ∧
    megacliConvert exC5raw = none :=
  ⟨rfl, rfl⟩

/-- **C5, amended.**  MegaCli tolerates an absent FRU field (empty-string
default via `dict.get`), but a record with no `Drive Temperature` field
always makes `parse_physical_drives` raise; omreport never reads a
temperature or FRU field and hard-codes both to the empty string. -/
theorem c5_amended_missing_fields :
    (∀ d : RawDrive, dictLookup d.fields "Drive Temperature" = none →
      megacliConvert d = none) ∧
    (∀ (d : RawDrive) (pd : PhysicalDrive), megacliConvert d = some pd →
      dictLookup d.fields "IBM FRU/CRU" = none → pd.fru = "") ∧
    (∀ (d : List (String × String)) (kp : String × PhysicalDrive),
      omreportConvert d = some kp → kp.2.temperature = "" ∧ kp.2.fru = "") := by
  refine ⟨?_, ?_, ?_⟩
  · intro d h
    cases hm : megacliConvert d with
    | none => rfl
    | some pd =>
      exfalso
      simp only [megacliConvert, Option.bind_eq_bind, Option.bind_eq_some, Option.pure_def,
        Option.some.injEq] at hm
      obtain ⟨a1, ha1, a2, ha2, a3, ha3, a4, ha4, a5, ha5, a6, ha6, a7, ha7, _⟩ := hm
      rw [h] at ha7
      cases ha7
  · intro d pd h hfru
    simp only [megacliConvert, Option.bind_eq_bind, Option.bind_eq_some, Option.pure_def,
      Option.some.injEq] at h
    obtain ⟨a1, ha1, a2, ha2, a3, ha3, a4, ha4, a5, ha5, a6, ha6, a7, ha7, a8, ha8,
      a9, ha9, a10, ha10, hpd⟩ := h
    rw [← hpd]
    show (dictLookup d.fields "IBM FRU/CRU").getD "" = ""
    rw [hfru]
    rfl
  · intro d kp h
    simp only [omreportConvert, Option.bind_eq_bind, Option.bind_eq_some, Option.pure_def,
      Option.some.injEq] at h
    obtain ⟨a1, ha1, a2, ha2, a3, ha3, a4, ha4, a5, ha5, a6, ha6, a7, ha7, a8, ha8, hpd⟩ := h
    rw [← hpd]
    exact ⟨rfl, rfl⟩

/-- **C5, amended, witness.** -/
theorem c5_amended_witness :
    (dictLookup exC5raw.fields "Drive Temperature" = none ∧
     megacliConvert exC5fru = some exC5pd ∧
     dictLookup exC5fru.fields "IBM FRU/CRU" = none ∧
     omreportConvert exC5om = some exC5omkp) ∧
    megacliConvert exC5raw = none ∧
    exC5pd.fru = "" ∧
    (exC5omkp.2.temperature = "" ∧ exC5omkp.2.fru = "") :=
  ⟨⟨rfl, rfl, rfl, rfl⟩,
   c5_amended_missing_fields.1 exC5raw rfl,
   c5_amended_missing_fields.2.1 exC5fru exC5pd rfl rfl,
   c5_amended_missing_fields.2.2 exC5om exC5omkp rfl⟩

/-! ## Claim C6 -/

theorem filter_snd_eq_of_nodup {α : Type} [DecidableEq α]
    (l : List (String × α)) (e : String × α)
    (hsnd : (l.map Prod.snd).Nodup) (he : e ∈ l) :
    l.filter (fun x => x.2 = e.2) = [e] := by
  induction l with
  | nil => simp at he
  | cons x rest ih =>
    simp only [List.map_cons, List.nodup_cons] at hsnd
    rcases List.mem_cons.mp he with h1 | h1
    · subst h1
      simp only [List.filter_cons]
      rw [if_pos (by simp)]
      have hrest : rest.filter (fun y => y.2 = e.2) = [] := by
        rw [List.filter_eq_nil_iff]
        intro y hy
        simp only [decide_eq_true_eq]
        intro hc
        exact hsnd.1 (hc ▸ List.mem_map.mpr ⟨y, hy, rfl⟩)
      rw [hrest]
    · have hx : ¬ (x.2 = e.2) := by
        intro hc
        exact hsnd.1 (hc ▸ List.mem_map.mpr ⟨e, h1, rfl⟩)
      simp only [List.filter_cons, decide_eq_true_eq, if_neg hx]
      exact ih hsnd.2 h1

theorem mdFold_char (devices : List (String × String))
    (rs : List (String × List (String × String))) (ph : List (String × PhysicalDrive))
    (hdev : ∀ r ∈ rs, ∃ did, dictLookup devices r.1 = some did ∧
      (dictLookup ph did).isSome) :
    ∃ ph', mdFold devices ph rs = some ph' ∧ ∀ k,
      dictLookup ph' k = rs.foldl (fun v r =>
        if dictLookup devices r.1 = some k then v.map (mdApply r.2) else v)
        (dictLookup ph k) := by
  induction rs generalizing ph with
  | nil =>
    exact ⟨ph, rfl, fun k => rfl⟩
  | cons r rest ih =>
    obtain ⟨did, hdid, hsome⟩ := hdev r (List.mem_cons_self _ _)
    obtain ⟨pd, hpd⟩ := Option.isSome_iff_exists.mp hsome
    have hdev' : ∀ r' ∈ rest, ∃ did', dictLookup devices r'.1 = some did' ∧
        (dictLookup (dictModify ph did (mdApply r.2)) did').isSome := by
      intro r' hr'
      obtain ⟨did', hdid', hsome'⟩ := hdev r' (List.mem_cons_of_mem _ hr')
      refine ⟨did', hdid', ?_⟩
      rw [dictLookup_modify]
      by_cases hdd : did' = did
      · rw [if_pos hdd]
        cases hld : dictLookup ph did' <;> simp_all
      · rw [if_neg hdd]
        exact hsome'
    obtain ⟨ph', hph', hchar⟩ := ih (dictModify ph did (mdApply r.2)) hdev'
    refine ⟨ph', ?_, ?_⟩
    · simp only [mdFold, hdid, Option.bind_eq_bind, Option.some_bind, hpd]
      exact hph'
    · intro k
      rw [hchar k, List.foldl_cons, dictLookup_modify, hdid]
      by_cases hk : k = did
      · subst hk
        rw [if_pos rfl, if_pos rfl]
      · have hns : ¬ (some did = some k) := by
          intro hc
          exact hk (Option.some_inj.mp hc).symm
        rw [if_neg hk, if_neg hns]

theorem foldl_mdstep_of_filter_nil (devices : List (String × String)) (k : String)
    (rs : List (String × List (String × String))) (v : Option PhysicalDrive)
    (h : rs.filter (fun r => dictLookup devices r.1 = some k) = []) :
    rs.foldl (fun v r =>
      if dictLookup devices r.1 = some k then v.map (mdApply r.2) else v) v = v := by
  induction rs generalizing v with
  | nil => rfl
  | cons r rest ih =>
    simp only [List.filter_cons] at h
    by_cases hp : dictLookup devices r.1 = some k
    · simp [hp] at h
    · have hd : (decide (dictLookup devices r.1 = some k)) = false := by simpa using hp
      rw [hd] at h
      simp only [List.foldl_cons, if_neg hp]
      exact ih v h

theorem foldl_mdstep_of_filter_single (devices : List (String × String)) (k : String)
    (rs : List (String × List (String × String))) (v : Option PhysicalDrive)
    (r0 : String × List (String × String))
    (h : rs.filter (fun r => dictLookup devices r.1 = some k) = [r0]) :
    rs.foldl (fun v r =>
      if dictLookup devices r.1 = some k then v.map (mdApply r.2) else v) v =
      v.map (mdApply r0.2) := by
  induction rs generalizing v with
  | nil => simp at h
  | cons r rest ih =>
    simp only [List.filter_cons] at h
    by_cases hp : dictLookup devices r.1 = some k
    · have hd : (decide (dictLookup devices r.1 = some k)) = true := by simpa using hp
      rw [hd] at h
      simp only [if_true] at h
      injection h with hr hrest
      subst hr
      rw [List.foldl_cons, if_pos hp]
      exact foldl_mdstep_of_filter_nil devices k rest _ hrest
    · have hd : (decide (dictLookup devices r.1 = some k)) = false := by simpa using hp
      rw [hd] at h
      simp only [List.foldl_cons, if_neg hp]
      exact ih v h

theorem probe_results_filter (devices : List (String × String)) (probe : String → Nat × String)
    (e : String × String) (hfst : (devices.map Prod.fst).Nodup)
    (hsnd : (devices.map Prod.snd).Nodup) (he : e ∈ devices) :
    (devices.map (fun d => examine_physical_drive d.1 (probe d.1).1 (probe d.1).2)).filter
      (fun r => dictLookup devices r.1 = some e.2) =
      [examine_physical_drive e.1 (probe e.1).1 (probe e.1).2] := by
  rw [List.filter_map]
  simp only [Function.comp_def]
  have hcong : devices.filter (fun d =>
      dictLookup devices (examine_physical_drive d.1 (probe d.1).1 (probe d.1).2).1 =
        some e.2) = devices.filter (fun d => d.2 = e.2) := by
    apply List.filter_congr
    intro d hd
    have hl : dictLookup devices d.1 = some d.2 :=
      dictLookup_eq_some_of_mem_nodup devices d.1 d.2 hfst hd
    have hfirst : (examine_physical_drive d.1 (probe d.1).1 (probe d.1).2).1 = d.1 := by
      rw [examine_physical_drive]
      by_cases hr : (probe d.1).1 ≠ 0 <;> simp [hr]
    rw [hfirst, hl]
    simp
  rw [hcong, filter_snd_eq_of_nodup devices e hsnd he]
  rfl

/-! ## Claim C4 -/

/-- **C4.**  The per-drive probe batch of `MdReport.parse_physical_drives`
returns exactly one `(item, outcome)` pair per input device (the result
collection has the input's size), the merge loop completes without
aborting, a device whose probe timed out (the `timeout` wrapper's exit
code 124) is marked `STATUS_FAILING`, and sibling devices whose probes
completed with parseable output keep their status untouched. -/
theorem c4_probe_timeout_isolated (phy : List (String × PhysicalDrive))
    (devices : List (String × String)) (probe : String → Nat × String)
    (hfst : (devices.map Prod.fst).Nodup) (hsnd : (devices.map Prod.snd).Nodup)
    (hin : ∀ e ∈ devices, (dictLookup phy e.2).isSome) :
    (devices.map (fun e =>
      examine_physical_drive e.1 (probe e.1).1 (probe e.1).2)).length = devices.length ∧
    ∃ ph', mdProbePhase phy devices probe = some ph' ∧
      (∀ e ∈ devices, (probe e.1).1 = 124 →
        (dictLookup ph' e.2).map (fun pd => pd.status) = some STATUS_FAILING) ∧
      (∀ e ∈ devices, (probe e.1).1 = 0 → (parseProps (probe e.1).2).isEmpty = false →
        (dictLookup ph' e.2).map (fun pd => pd.status) =
          (dictLookup phy e.2).map (fun pd => pd.status)) := by
  refine ⟨List.length_map _ _, ?_⟩
  have hdev : ∀ r ∈ devices.map (fun e =>
      examine_physical_drive e.1 (probe e.1).1 (probe e.1).2),
      ∃ did, dictLookup devices r.1 = some did ∧ (dictLookup phy did).isSome := by
    intro r hr
    obtain ⟨d, hd, rfl⟩ := List.mem_map.mp hr
    have hfirst : (examine_physical_drive d.1 (probe d.1).1 (probe d.1).2).1 = d.1 := by
      rw [examine_physical_drive]
      by_cases hrr : (probe d.1).1 ≠ 0 <;> simp [hrr]
    refine ⟨d.2, ?_, hin d hd⟩
    rw [hfirst]
    exact dictLookup_eq_some_of_mem_nodup devices d.1 d.2 hfst hd
  obtain ⟨ph', hph', hchar⟩ := mdFold_char devices _ phy hdev
  refine ⟨ph', hph', ?_, ?_⟩
  · intro e he htime
    have hsingle := probe_results_filter devices probe e hfst hsnd he
    have := hchar e.2
    rw [foldl_mdstep_of_filter_single devices e.2 _ _ _ hsingle] at this
    obtain ⟨pd, hpd⟩ := Option.isSome_iff_exists.mp (hin e he)
    rw [this, hpd]
    have hout : (examine_physical_drive e.1 (probe e.1).1 (probe e.1).2).2 = [] := by
      rw [examine_physical_drive]
      have : (probe e.1).1 ≠ 0 := by
        rw [htime]
        decide
      simp [this]
    rw [hout]
    rfl
  · intro e he hret hparse
    have hsingle := probe_results_filter devices probe e hfst hsnd he
    have := hchar e.2
    rw [foldl_mdstep_of_filter_single devices e.2 _ _ _ hsingle] at this
    obtain ⟨pd, hpd⟩ := Option.isSome_iff_exists.mp (hin e he)
    rw [this, hpd]
    have hout : (examine_physical_drive e.1 (probe e.1).1 (probe e.1).2).2 =
        parseProps (probe e.1).2 := by
      rw [examine_physical_drive]
      simp [hret]
    rw [hout]
    simp only [Option.map_some']
    rw [mdApply, if_neg (by simp [hparse])]

/-- **C4, witness.** -/
theorem c4_witness :
    ((exC4devices.map Prod.fst).Nodup ∧ (exC4devices.map Prod.snd).Nodup ∧
     ∀ e ∈ exC4devices, (dictLookup exC4phy e.2).isSome) ∧
    ((exC4devices.map (fun e =>
      examine_physical_drive e.1 (exC4probe e.1).1 (exC4probe e.1).2)).length =
        exC4devices.length ∧
     ∃ ph', mdProbePhase exC4phy exC4devices exC4probe = some ph' ∧
      (∀ e ∈ exC4devices, (exC4probe e.1).1 = 124 →
        (dictLookup ph' e.2).map (fun pd => pd.status) = some STATUS_FAILING) ∧
      (∀ e ∈ exC4devices, (exC4probe e.1).1 = 0 →
        (parseProps (exC4probe e.1).2).isEmpty = false →
        (dictLookup ph' e.2).map (fun pd => pd.status) =
          (dictLookup exC4phy e.2).map (fun pd => pd.status))) :=
  ⟨⟨by decide, by decide, by decide⟩,
   c4_probe_timeout_isolated exC4phy exC4devices exC4probe (by decide) (by decide) (by decide)⟩

/-! ## Lemmas: manager selection -/

theorem automatic_cli_eq_firstSupported (files : List String)
    (outcome : String → CandOutcome)
    (hattr : ∀ f ∈ files, isRaidModule f → outcome f ≠ CandOutcome.noReportAttr) :
    automatic_cli files outcome =
      match firstSupported files outcome with
      | some r => Except.ok r
      | none => Except.error "No supported RAID managers found." := by
  induction files with
  | nil => rfl
  | cons f rest ih =>
    have ihr := ih (fun f' hf' => hattr f' (List.mem_cons_of_mem _ hf'))
    by_cases hm : isRaidModule f
    · cases ho : outcome f with
      | supported r =>
        simp only [automatic_cli, firstSupported, hm, if_pos, ho]
      | noReportAttr =>
        exact absurd ho (hattr f (List.mem_cons_self _ _) hm)
      | importFailed =>
        simp only [automatic_cli, firstSupported, hm, if_pos, ho]
        exact ihr
      | unsupported =>
        simp only [automatic_cli, firstSupported, hm, if_pos, ho]
        exact ihr
    · simp only [automatic_cli, firstSupported, hm, if_neg, if_false]
      exact ihr

theorem attemptedModules_sublist (files : List String) (outcome : String → CandOutcome) :
    List.Sublist (attemptedModules files outcome) files := by
  induction files with
  | nil => exact List.nil_sublist _
  | cons f rest ih =>
    by_cases hm : isRaidModule f
    · cases ho : outcome f with
      | supported r =>
        simp only [attemptedModules, hm, if_pos, ho]
        exact (List.nil_sublist rest).cons₂ f
      | noReportAttr =>
        simp only [attemptedModules, hm, if_pos, ho]
        exact (List.nil_sublist rest).cons₂ f
      | importFailed =>
        simp only [attemptedModules, hm, if_pos, ho]
        exact ih.cons₂ f
      | unsupported =>
        simp only [attemptedModules, hm, if_pos, ho]
        exact ih.cons₂ f
    · simp only [attemptedModules, hm, if_neg, if_false]
      exact ih.cons f

/-! ## Claim C8 -/

/-- **C8.**  `automatic_cli` consults each candidate module at most once
(the attempted candidates form a sublist of the directory listing, so with
distinct filenames no candidate is attempted twice), returns the report of
the *first* candidate whose instantiation succeeds, and raises the
`No supported RAID managers found.` error exactly when no candidate
instantiates.  (The hypothesis that no `raid_*.py` module lacks a `report`
attribute holds for every module of this package.)  The final conjunct
ties instantiation failure to `find_cli_path`: it raises exactly when
every declared executable name is absent from the search path. -/
theorem c8_selector_first_success (files : List String) (outcome : String → CandOutcome)
    (hattr : ∀ f ∈ files, isRaidModule f → outcome f ≠ CandOutcome.noReportAttr) :
    List.Sublist (attemptedModules files outcome) files ∧
    (files.Nodup → (attemptedModules files outcome).Nodup) ∧
    (∀ r, automatic_cli files outcome = .ok r ↔ firstSupported files outcome = some r) ∧
    ((∃ e, automatic_cli files outcome = .error e) ↔
      firstSupported files outcome = none) ∧
    (∀ (exes : List String) (fe : String → Option String),
      (∃ e, find_cli_path exes fe = .error e) ↔ ∀ x ∈ exes, fe x = none) := by
  have heq := automatic_cli_eq_firstSupported files outcome hattr
  refine ⟨attemptedModules_sublist files outcome,
    fun hn => hn.sublist (attemptedModules_sublist files outcome), ?_, ?_, ?_⟩
  · intro r
    rw [heq]
    cases firstSupported files outcome with
    | none =>
      constructor
      · intro h
        cases h
      · intro h
        cases h
    | some r' =>
      constructor
      · intro h
        cases h
        rfl
      · intro h
        cases h
        rfl
  · rw [heq]
    cases firstSupported files outcome with
    | none =>
      constructor
      · intro _
        rfl
      · intro _
        exact ⟨_, rfl⟩
    | some r' =>
      constructor
      · rintro ⟨e, he⟩
        cases he
      · intro h
        cases h
  · intro exes fe
    rw [find_cli_path]
    cases hf : exes.findSome? fe with
    | none =>
      simp only []
      constructor
      · intro _
        exact List.findSome?_eq_none_iff.mp hf
      · intro _
        exact ⟨_, rfl⟩
    | some p =>
      constructor
      · rintro ⟨e, he⟩
        cases he
      · intro h
        rw [List.findSome?_eq_none_iff.mpr h] at hf
        cases hf

/-- **C8, witness.** -/
theorem c8_witness :
    (∀ f ∈ exC8files, isRaidModule f → exC8outcome f ≠ CandOutcome.noReportAttr) ∧
    (List.Sublist (attemptedModules exC8files exC8outcome) exC8files ∧
     (exC8files.Nodup → (attemptedModules exC8files exC8outcome).Nodup) ∧
     (∀ r, automatic_cli exC8files exC8outcome = .ok r ↔
       firstSupported exC8files exC8outcome = some r) ∧
     ((∃ e, automatic_cli exC8files exC8outcome = .error e) ↔
       firstSupported exC8files exC8outcome = none) ∧
     (∀ (exes : List String) (fe : String → Option String),
       (∃ e, find_cli_path exes fe = .error e) ↔ ∀ x ∈ exes, fe x = none)) :=
  ⟨by decide, c8_selector_first_success exC8files exC8outcome (by decide)⟩

/-! ## Claim C9 -/

/-- **C9.**  The collections `adapters`, `phy_drives`, `log_drives` (and
`MdReport.arrays`) are class-level attributes shared by every
`RaidReport` instance, modelled here as state threaded through every
parse phase: no parse phase or constructor ever resets a collection —
the adapter and logical-drive phases strictly *append* to the incoming
lists, the drive-storing phase preserves every key already present, and
`MdReport.__init__`'s `_check_array_list` appends to `arrays` — so the
records appended by one instance's run are still present in the
collections a later instance sees, and a second collection run starts
from the first run's contents (last conjunct), not from empty
collections. -/
theorem c9_class_level_collections_shared :
    (∀ (ads : List Adapter) (raws : List (List (String × String))) (r : List Adapter),
      megacliAdaptersPhase ads raws = some r → ∃ tail, r = ads ++ tail) ∧
    (∀ (logs : List LogicalDrive) (raws : List RawLogDrive) (r : List LogicalDrive),
      megacliLogPhase logs raws = some r → ∃ tail, r = logs ++ tail) ∧
    (∀ (ph : List (String × PhysicalDrive)) (ds : List RawDrive)
       (r : List (String × PhysicalDrive)) (k : String),
      megacliStorePhase ph ds = some r →
      (dictLookup ph k).isSome → (dictLookup r k).isSome) ∧
    (∀ (arrays : List String) (ret : Nat) (out : String) (r : List String),
      mdCheckArrayList arrays ret out = .ok r → ∃ tail, r = arrays ++ tail) ∧
    (∀ (ads : List Adapter) (raws1 raws2 : List (List (String × String)))
       (r1 r2 : List Adapter),
      megacliAdaptersPhase ads raws1 = some r1 →
      megacliAdaptersPhase r1 raws2 = some r2 →
      ∃ t1 t2, r2 = ads ++ t1 ++ t2) := by
  have hadp : ∀ (ads : List Adapter) (raws : List (List (String × String)))
      (r : List Adapter), megacliAdaptersPhase ads raws = some r → ∃ tail, r = ads ++ tail := by
    intro ads raws r h
    simp only [megacliAdaptersPhase, Option.bind_eq_bind, Option.bind_eq_some,
      Option.pure_def, Option.some.injEq] at h
    obtain ⟨keyed, hk, news, hn, happ⟩ := h
    exact ⟨news, happ.symm⟩
  refine ⟨hadp, ?_, ?_, ?_, ?_⟩
  · intro logs raws r h
    simp only [megacliLogPhase, Option.bind_eq_bind, Option.bind_eq_some,
      Option.pure_def, Option.some.injEq] at h
    obtain ⟨news, hn, happ⟩ := h
    exact ⟨news, happ.symm⟩
  · intro ph ds r k h hq
    exact megacliStorePhase_mono ph ds r h k hq
  · intro arrays ret out r h
    rw [mdCheckArrayList] at h
    by_cases hret : ret ≠ 0
    · rw [if_pos hret] at h
      cases h
    · rw [if_neg hret] at h
      by_cases hout : out = ""
      · rw [if_pos hout] at h
        cases h
      · rw [if_neg hout] at h
        cases hm : (pySplitlines out).mapM (fun line => (pySplit line).get? 1) with
        | none =>
          rw [hm] at h
          cases h
        | some devs =>
          rw [hm] at h
          cases h
          exact ⟨devs, rfl⟩
  · intro ads raws1 raws2 r1 r2 h1 h2
    obtain ⟨t1, ht1⟩ := hadp ads raws1 r1 h1
    obtain ⟨t2, ht2⟩ := hadp r1 raws2 r2 h2
    exact ⟨t1, t2, by rw [ht2, ht1]⟩

/-- **C9, witness.** -/
theorem c9_witness :
    (megacliAdaptersPhase [] [exC9adp] = some exC9run1 ∧
     megacliAdaptersPhase exC9run1 [exC9adp2] = some exC9run2 ∧
     megacliLogPhase [] [exC9log] = some exC9logs ∧
     megacliStorePhase [] [exC9raw] = some exC9dict ∧
     (dictLookup exC9dict "11").isSome ∧
     megacliStorePhase exC9dict [exC9raw2] = some exC9dict2 ∧
     mdCheckArrayList [] 0 exC9out = .ok exC9arrays) ∧
    (∃ tail, exC9run1 = [] ++ tail) ∧
    (∃ tail, exC9logs = [] ++ tail) ∧
    (dictLookup exC9dict2 "11").isSome ∧
    (∃ tail, exC9arrays = [] ++ tail) ∧
    (∃ t1 t2, exC9run2 = [] ++ t1 ++ t2) :=
  ⟨⟨rfl, rfl, rfl, rfl, rfl, rfl, rfl⟩,
   c9_class_level_collections_shared.1 [] [exC9adp] exC9run1 rfl,
   c9_class_level_collections_shared.2.1 [] [exC9log] exC9logs rfl,
   c9_class_level_collections_shared.2.2.1 exC9dict [exC9raw2] exC9dict2 "11" rfl rfl,
   c9_class_level_collections_shared.2.2.2.1 [] 0 exC9out exC9arrays rfl,
   c9_class_level_collections_shared.2.2.2.2 [] [exC9adp] [exC9adp2] exC9run1 exC9run2 rfl rfl⟩

end CcbrServer
